import Mathlib

/-!
# Two-level page table and TLB emulator

A shallow embedding of `src/page.c` and `src/tlb.c`.

* Machine words are natural numbers; every word stored in a table is the value of a
  32-bit `unsigned int`.  The bitwise operators of C are the bitwise operators of `Nat`.
* Arrays that are indexed by a virtual page number (the two page-table levels) are
  functions from the index to the stored value.  The TLB array, which the code walks
  with `for` loops, is a list.
* `malloc` does not clear the block it returns: wherever the code allocates, the
  embedding takes the contents of the fresh block as an argument.
* The calls to `mmu_modify_rbit_bitmap` and `mmu_modify_mbit_bitmap` (defined in the
  absent `mmu.c`) are recorded, in order, with the argument values the code passes.
-/

namespace VM

/-! ## Words -/

/-- Bitwise complement of a 32-bit word (the C operator `~` on `unsigned int`). -/
def not32 (x : Nat) : Nat := 0xFFFFFFFF ^^^ x

/-- Left shift of a 32-bit word (the C operator `<<`, bits shifted out are lost). -/
def shl32 (x k : Nat) : Nat := (x <<< k) % 2 ^ 32

/-- Modelled from the spec: `types.h`, which declares `BOOL`, is missing.  The spec
makes `pt_get_pageframe` succeed exactly when the present bit (bit 31) is set, so `BOOL`
is an integer type of 32 bits: converting a 32-bit word to `BOOL` keeps all its bits. -/
def toBOOL (x : Nat) : Nat := x % 2 ^ 32

/-! ## Page table (`src/page.c`) -/

/-- Present bit: most significant bit of a page table entry (`page.c` line 34). -/
def PRESENT_BIT_MASK : Nat := 0x80000000

/-- Lowest 20 bits of a word (`page.c` line 37, `tlb.c` line 42). -/
def PFRAME_MASK : Nat := 0x000FFFFF

/-- Size of each page table (`page.c` line 43). -/
def PT_SIZE : Nat := 1024

/-- Shift giving the first-level index (`page.c` line 57). -/
def DIV_FIRST_PT_SHIFT : Nat := 10

/-- Mask giving the second-level index (`page.c` line 60). -/
def MOD_SECOND_PT_MASK : Nat := 0x3FF

/-- The globals of `page.c`: `first_level_page_table` maps a first-level index to `none`
(the `NULL` pointer) or to a second-level table, itself a map from the second-level index
to a `PT_ENTRY`; `page_fault` is the fault flag. -/
structure PT where
  first_level_page_table : Nat → Option (Nat → Nat)
  page_fault : Bool

/-- Translation of `pt_initialize_page_table` (`page.c` lines 46-54): every first-level
slot is set to `NULL`. -/
def pt_initialize_page_table (s : PT) : PT :=
  { s with first_level_page_table := fun _ => none }

/-- Translation of `pt_get_pageframe` (`page.c` lines 66-85): the returned frame and
the state with `page_fault` updated. -/
def pt_get_pageframe (vpage : Nat) (s : PT) : Nat × PT :=
  let first_level_pt := vpage >>> DIV_FIRST_PT_SHIFT
  let second_level_pt := vpage &&& MOD_SECOND_PT_MASK
  match s.first_level_page_table first_level_pt with
  | none => (0, { s with page_fault := true })
  | some second_pt_entries =>
    let present_bit := toBOOL (second_pt_entries second_level_pt &&& PRESENT_BIT_MASK)
    if present_bit ≠ 0 then
      (second_pt_entries second_level_pt &&& PFRAME_MASK, { s with page_fault := false })
    else
      (0, { s with page_fault := true })

/-- Translation of `pt_update_pagetable` (`page.c` lines 88-99).  `fresh` is the content
of the block `malloc` returns if a second-level table has to be allocated. -/
def pt_update_pagetable (fresh : Nat → Nat) (vpage pframe : Nat) (s : PT) : PT :=
  let first_level_pt := vpage >>> DIV_FIRST_PT_SHIFT
  let second_level_pt := vpage &&& MOD_SECOND_PT_MASK
  let second_pt_entries :=
    match s.first_level_page_table first_level_pt with
    | none => fresh
    | some t => t
  let entry := PRESENT_BIT_MASK ||| (pframe &&& PFRAME_MASK)
  let table := Function.update second_pt_entries second_level_pt entry
  { s with
    first_level_page_table := Function.update s.first_level_page_table first_level_pt (some table) }

/-- Translation of `pt_clear_page_table_entry` (`page.c` lines 102-111). -/
def pt_clear_page_table_entry (vpage : Nat) (s : PT) : PT :=
  let first_level_pt := vpage >>> DIV_FIRST_PT_SHIFT
  let second_level_pt := vpage &&& MOD_SECOND_PT_MASK
  match s.first_level_page_table first_level_pt with
  | none => s
  | some second_pt_entries =>
    let entry := second_pt_entries second_level_pt &&& not32 PRESENT_BIT_MASK
    let table := Function.update second_pt_entries second_level_pt entry
    { s with
      first_level_page_table := Function.update s.first_level_page_table first_level_pt (some table) }

/-! ## TLB (`src/tlb.c`) -/

/-- The two-word `TLB_ENTRY` struct (`tlb.c` lines 18-23). -/
structure TLB_ENTRY where
  vbit_and_vpage : Nat
  mr_pframe : Nat
deriving DecidableEq

instance : Inhabited TLB_ENTRY := ⟨⟨0, 0⟩⟩

/-- Modelled from the spec: `types.h`, which declares `OPERATION`, is missing; the spec
names the two operations of the instruction stream, LOAD and STORE. -/
inductive OPERATION where
  | LOAD
  | STORE
deriving DecidableEq

/-- VBIT is the leftmost bit of the first word (`tlb.c` line 38). -/
def VBIT_MASK : Nat := 0x80000000

/-- Lowest 20 bits of the first word (`tlb.c` line 39). -/
def VPAGE_MASK : Nat := 0x000FFFFF

/-- RBIT is the leftmost bit of the second word (`tlb.c` line 40). -/
def RBIT_MASK : Nat := 0x80000000

/-- MBIT is the second leftmost bit of the second word (`tlb.c` line 41). -/
def MBIT_MASK : Nat := 0x40000000

/-- A call the TLB makes into the MMU module, with the values of its two arguments: the
page frame, and the `int` the code passes as the bit (its 32-bit pattern). -/
inductive MMU_CALL where
  | mmu_modify_rbit_bitmap (pageframe : Nat) (r : Nat)
  | mmu_modify_mbit_bitmap (pageframe : Nat) (m : Nat)
deriving DecidableEq

/-- The globals of `tlb.c`: the array `tlb` (its length is `num_tlb_entries`, the size it
is allocated with on line 49), `clock_hand`, `tlb_miss`, and the calls made into the MMU
module so far. -/
structure TLB where
  tlb : List TLB_ENTRY
  clock_hand : Nat
  tlb_miss : Bool
  mmu_calls : List MMU_CALL
deriving DecidableEq

/-- The size of the TLB. -/
def TLB.num_tlb_entries (s : TLB) : Nat := s.tlb.length

/-- The globals before `tlb_initialize`: no array, `clock_hand = 0` (`tlb.c` line 111),
`tlb_miss` zero (static storage), no call made. -/
def TLB.boot : TLB := ⟨[], 0, false, []⟩

/-- Translation of `tlb_clear_all` (`tlb.c` lines 56-63). -/
def tlb_clear_all (s : TLB) : TLB :=
  { s with
    tlb := s.tlb.map fun e =>
      { e with vbit_and_vpage := e.vbit_and_vpage &&& not32 VBIT_MASK } }

/-- Translation of `tlb_initialize` (`tlb.c` lines 46-53).  `mem` is the block `malloc`
returns: `num_tlb_entries` entries of unspecified content. -/
def tlb_initialize (mem : List TLB_ENTRY) (s : TLB) : TLB :=
  tlb_clear_all { s with tlb := mem }

/-- Translation of `tlb_clear_all_R_bits` (`tlb.c` lines 66-73). -/
def tlb_clear_all_R_bits (s : TLB) : TLB :=
  { s with
    tlb := s.tlb.map fun e => { e with mr_pframe := e.mr_pframe &&& not32 RBIT_MASK } }

/-- Translation of `tlb_clear_entry` (`tlb.c` lines 76-85). -/
def tlb_clear_entry (vpage : Nat) (s : TLB) : TLB :=
  { s with
    tlb := s.tlb.map fun e =>
      if (e.vbit_and_vpage &&& VPAGE_MASK) = vpage then
        { e with vbit_and_vpage := e.vbit_and_vpage &&& not32 VBIT_MASK }
      else e }

/-- The loop of `tlb_lookup` (`tlb.c` lines 91-106) over the entries not yet visited,
with the current value of `tlb_miss`: the value returned (`none` when the loop ends and
the function falls off its end without a `return`), the entries, and `tlb_miss`. -/
def tlb_lookup_loop (vpage : Nat) (op : OPERATION) :
    List TLB_ENTRY → Bool → Option Nat × List TLB_ENTRY × Bool
  | [], miss => (none, [], miss)
  | e :: rest, _ =>
    if (e.vbit_and_vpage &&& VPAGE_MASK) = vpage ∧ (e.vbit_and_vpage &&& VBIT_MASK) ≠ 0 then
      let mr1 := e.mr_pframe ||| RBIT_MASK
      let mr2 := if op = OPERATION.STORE then mr1 ||| MBIT_MASK else mr1
      (some (mr2 &&& PFRAME_MASK), { e with mr_pframe := mr2 } :: rest, false)
    else
      let r := tlb_lookup_loop vpage op rest true
      (r.1, e :: r.2.1, r.2.2)

/-- The second word of an entry after a hit of `tlb_lookup` (`tlb.c` lines 96-100). -/
def tlb_hit_word (op : OPERATION) (mr_pframe : Nat) : Nat :=
  if op = OPERATION.STORE then (mr_pframe ||| RBIT_MASK) ||| MBIT_MASK
  else mr_pframe ||| RBIT_MASK

/-- Translation of `tlb_lookup` (`tlb.c` lines 88-107). -/
def tlb_lookup (vpage : Nat) (op : OPERATION) (s : TLB) : Option Nat × TLB :=
  let r := tlb_lookup_loop vpage op s.tlb s.tlb_miss
  (r.1, { s with tlb := r.2.1, tlb_miss := r.2.2 })

/-- The value of a C comparison: 1 when it holds, 0 otherwise. -/
def cbool (b : Bool) : Nat := if b then 1 else 0

/-- The condition of the scan on line 119 of `tlb.c`, as C parses it: `==` binds tighter
than `&`, so it reads
`(vbit_and_vpage & (VBIT_MASK == 0)) || (mr_pframe & (RBIT_MASK == 0))`. -/
def tlb_insert_cond (e : TLB_ENTRY) : Bool :=
  (e.vbit_and_vpage &&& cbool (VBIT_MASK == 0)) != 0 ||
    (e.mr_pframe &&& cbool (RBIT_MASK == 0)) != 0

/-- The scan loop of `tlb_insert` (`tlb.c` lines 118-123) over the entries from index
`i` on: the index at which the loop breaks, if it does. -/
def tlb_insert_scan : List TLB_ENTRY → Nat → Option Nat
  | [], _ => none
  | e :: rest, i => if tlb_insert_cond e then some i else tlb_insert_scan rest (i + 1)

/-- The two notifications of lines 127-131 and 167-171 of `tlb.c` for one entry. -/
def tlb_notify (e : TLB_ENTRY) : List MMU_CALL :=
  let pageframe := e.mr_pframe &&& PFRAME_MASK
  let r := e.mr_pframe &&& RBIT_MASK
  let m := e.mr_pframe &&& MBIT_MASK
  [MMU_CALL.mmu_modify_rbit_bitmap pageframe r, MMU_CALL.mmu_modify_mbit_bitmap pageframe m]

/-- The entry `tlb_insert` writes over `e` (`tlb.c` lines 135-149). -/
def tlb_insert_entry (new_vpage new_pframe new_mbit new_rbit : Nat) (e : TLB_ENTRY) :
    TLB_ENTRY :=
  let v1 := e.vbit_and_vpage ||| VBIT_MASK
  let v2 := v1 ||| VPAGE_MASK
  let v3 := v2 &&& (new_vpage ||| not32 VPAGE_MASK)
  let p1 := e.mr_pframe ||| MBIT_MASK
  let p2 := p1 &&& (shl32 new_mbit 31 ||| not32 MBIT_MASK)
  let p3 := p2 ||| RBIT_MASK
  let p4 := p3 &&& (shl32 new_rbit 30 ||| not32 RBIT_MASK)
  let p5 := p4 ||| PFRAME_MASK
  let p6 := p5 &&& (new_pframe ||| not32 PFRAME_MASK)
  { vbit_and_vpage := v3, mr_pframe := p6 }

/-- Translation of `tlb_insert` (`tlb.c` lines 115-158).  The clock hand is an index into
the array in every state the program reaches with at least one entry; the code has no
defined behaviour otherwise. -/
def tlb_insert (new_vpage new_pframe new_mbit new_rbit : Nat) (s : TLB) : TLB :=
  let clock_hand := (tlb_insert_scan (s.tlb.drop s.clock_hand) s.clock_hand).getD s.clock_hand
  let e := s.tlb.getD clock_hand default
  let calls := if (e.vbit_and_vpage &&& VBIT_MASK) ≠ 0 then tlb_notify e else []
  let e1 := tlb_insert_entry new_vpage new_pframe new_mbit new_rbit e
  let clock_hand1 := clock_hand + 1
  let clock_hand2 := if clock_hand1 > s.num_tlb_entries - 1 then 0 else clock_hand1
  { tlb := s.tlb.set clock_hand e1
    clock_hand := clock_hand2
    tlb_miss := s.tlb_miss
    mmu_calls := s.mmu_calls ++ calls }

/-- The loop of `tlb_write_back` (`tlb.c` lines 165-173): the calls it makes. -/
def tlb_write_back_loop : List TLB_ENTRY → List MMU_CALL
  | [] => []
  | e :: rest =>
    (if (e.vbit_and_vpage &&& VBIT_MASK) ≠ 0 then tlb_notify e else [])
      ++ tlb_write_back_loop rest

/-- Translation of `tlb_write_back` (`tlb.c` lines 162-174). -/
def tlb_write_back (s : TLB) : TLB :=
  { s with mmu_calls := s.mmu_calls ++ tlb_write_back_loop s.tlb }

/-- One call of an operation of the TLB module, with its arguments. -/
inductive TLB_OP where
  | insert (new_vpage new_pframe new_mbit new_rbit : Nat)
  | lookup (vpage : Nat) (op : OPERATION)
  | clear_all
  | clear_all_R_bits
  | clear_entry (vpage : Nat)
  | write_back
deriving DecidableEq

/-- The state after one call. -/
def TLB_OP.apply : TLB_OP → TLB → TLB
  | TLB_OP.insert v f m r, s => tlb_insert v f m r s
  | TLB_OP.lookup v op, s => (tlb_lookup v op s).2
  | TLB_OP.clear_all, s => tlb_clear_all s
  | TLB_OP.clear_all_R_bits, s => tlb_clear_all_R_bits s
  | TLB_OP.clear_entry v, s => tlb_clear_entry v s
  | TLB_OP.write_back, s => tlb_write_back s

/-- The state after a sequence of calls, first call first. -/
def tlb_run (ops : List TLB_OP) (s : TLB) : TLB :=
  ops.foldl (fun t o => o.apply t) s

/-- The states the TLB reaches: `tlb_initialize` on a fresh block, then any sequence of
the operations of the module. -/
def TLB.Reachable (s : TLB) : Prop :=
  ∃ (mem : List TLB_ENTRY) (ops : List TLB_OP), s = tlb_run ops ( tlb_initialize mem TLB.boot)

/-- An entry caches `vpage`: its valid bit is set and its VPN field equals `vpage`. -/
def TLB_ENTRY.caches (e : TLB_ENTRY) (vpage : Nat) : Prop :=
  (e.vbit_and_vpage &&& VBIT_MASK) ≠ 0 ∧ (e.vbit_and_vpage &&& VPAGE_MASK) = vpage

instance (e : TLB_ENTRY) (vpage : Nat) : Decidable (e.caches vpage) := by
  unfold TLB_ENTRY.caches; exact inferInstance

/-- At most one entry caches each VPN. -/
def TLB.unique (s : TLB) : Prop :=
  ∀ vpn : Nat, s.tlb.countP (fun e => decide (e.caches vpn)) ≤ 1

/-- Every `tlb_insert` of the sequence, run from `s`, is called for a VPN below `2^20`
that no entry caches at the time of the call. -/
def tlb_insert_guarded : List TLB_OP → TLB → Prop
  | [], _ => True
  | o :: ops, s =>
    (match o with
      | TLB_OP.insert v _ _ _ => v < 2 ^ 20 ∧ ∀ e ∈ s.tlb, ¬ e.caches v
      | _ => True) ∧
    tlb_insert_guarded ops (o.apply s)


/-- The `(vpage, pframe)` arguments of the `tlb_insert` calls of a sequence, in order. -/
def tlb_inserted : List TLB_OP → List (Nat × Nat)
  | [] => []
  | o :: ops =>
    match o with
    | TLB_OP.insert v f _ _ => (v, f) :: tlb_inserted ops
    | _ => tlb_inserted ops

/-- The call is a `tlb_insert` or a `tlb_lookup`. -/
def TLB_OP.isInsertOrLookup : TLB_OP → Bool
  | TLB_OP.insert _ _ _ _ => true
  | TLB_OP.lookup _ _ => true
  | _ => false

/-- What an entry translates: `none` when its valid bit is clear, its VPN and PFN fields
otherwise. -/
def TLB_ENTRY.core (e : TLB_ENTRY) : Option (Nat × Nat) :=
  if (e.vbit_and_vpage &&& VBIT_MASK) ≠ 0 then
    some (e.vbit_and_vpage &&& VPAGE_MASK, e.mr_pframe &&& PFRAME_MASK)
  else none

/-- The frame of the first translation of `vpage` in a list of translations. -/
def core_find (vpage : Nat) : List (Option (Nat × Nat)) → Option Nat
  | [] => none
  | none :: rest => core_find vpage rest
  | some p :: rest => if p.1 = vpage then some p.2 else core_find vpage rest

/-- The effect of one `tlb_insert` on the translations and the clock hand. -/
def core_step (c : List (Option (Nat × Nat)) × Nat) (p : Nat × Nat) :
    List (Option (Nat × Nat)) × Nat :=
  (c.1.set c.2 (some (p.1 % 2 ^ 20, p.2 % 2 ^ 20)),
    if c.2 + 1 > c.1.length - 1 then 0 else c.2 + 1)


/-- The call is a `tlb_insert`. -/
def TLB_OP.isInsert : TLB_OP → Bool
  | TLB_OP.insert _ _ _ _ => true
  | _ => false

/-- One call that changes the page table: `pt_update_pagetable` (with the block `malloc`
returns if it allocates) or `pt_clear_page_table_entry`. -/
inductive PT_OP where
  | update (fresh : Nat → Nat) (vpage pframe : Nat)
  | clear (vpage : Nat)

/-- The virtual page a call is made for. -/
def PT_OP.vpage : PT_OP → Nat
  | PT_OP.update _ vpage _ => vpage
  | PT_OP.clear vpage => vpage

/-- The page-table state after one call. -/
def PT_OP.apply : PT_OP → PT → PT
  | PT_OP.update fresh vpage pframe, s => pt_update_pagetable fresh vpage pframe s
  | PT_OP.clear vpage, s => pt_clear_page_table_entry vpage s

/-- The page-table state after a sequence of calls, first call first. -/
def pt_run (ops : List PT_OP) (s : PT) : PT :=
  ops.foldl (fun t o => o.apply t) s

/-- No entry of the TLB has its valid bit set. -/
def TLB.flushed (s : TLB) : Prop :=
  ∀ e ∈ s.tlb, e.vbit_and_vpage &&& VBIT_MASK = 0

/-! ## Bit lemmas -/

theorem testBit_high_of_lt (x n i : Nat) (hx : x < 2 ^ n) (hi : n ≤ i) :
    x.testBit i = false :=
  Nat.testBit_eq_false_of_lt (lt_of_lt_of_le hx (Nat.pow_le_pow_right (by decide) hi))

theorem and_PFRAME_MASK (x : Nat) : x &&& PFRAME_MASK = x % 2 ^ 20 := by
  have h : PFRAME_MASK = 2 ^ 20 - 1 := by decide
  rw [h, Nat.and_pow_two_sub_one_eq_mod]

theorem or_bit31_and_bit31 (x : Nat) : (2 ^ 31 ||| x) &&& 2 ^ 31 = 2 ^ 31 := by
  apply Nat.eq_of_testBit_eq
  intro i
  simp only [Nat.testBit_and, Nat.testBit_or, Nat.testBit_two_pow]
  by_cases h : 31 = i <;> simp [h]

theorem or_bit31_mod_pow20 (x : Nat) (hx : x < 2 ^ 20) : (2 ^ 31 ||| x) % 2 ^ 20 = x := by
  apply Nat.eq_of_testBit_eq
  intro i
  simp only [Nat.testBit_mod_two_pow, Nat.testBit_or, Nat.testBit_two_pow]
  by_cases h : i < 20
  · have : ¬ 31 = i := by omega
    simp [h, this]
  · simp [h, testBit_high_of_lt x 20 i hx (by omega)]

/-! ## Page table: theorems -/

theorem pt_update_get (fresh : Nat → Nat) (v f : Nat) (s : PT) (hf : f < 2 ^ 20) :
    pt_get_pageframe v (pt_update_pagetable fresh v f s)
      = (f, { pt_update_pagetable fresh v f s with page_fault := false }) := by
  have hp : PRESENT_BIT_MASK = 2 ^ 31 := by decide
  have hfm : f &&& PFRAME_MASK = f := by
    rw [and_PFRAME_MASK]; exact Nat.mod_eq_of_lt hf
  simp only [pt_get_pageframe, pt_update_pagetable, Function.update_same, hfm, toBOOL, hp,
    or_bit31_and_bit31]
  rw [← hp, and_PFRAME_MASK, hp, or_bit31_mod_pow20 f hf]
  simp

/-- C1. Translation round-trip: in every page-table state, for every VPN `v < 2^20` and
every PFN `f < 2^20`, `pt_get_pageframe v` called right after `pt_update_pagetable v f`
returns exactly `f` and leaves `page_fault` false (whatever `malloc` returned if a
second-level table had to be allocated). -/
theorem C1_translation_round_trip (fresh : Nat → Nat) (s : PT) (v f : Nat)
    (hv : v < 2 ^ 20) (hf : f < 2 ^ 20) :
    (pt_get_pageframe v (pt_update_pagetable fresh v f s)).1 = f ∧
    (pt_get_pageframe v (pt_update_pagetable fresh v f s)).2.page_fault = false := by
  have _ := hv
  rw [pt_update_get fresh v f s hf]
  exact ⟨rfl, rfl⟩

/-- C1 (witness): the initialized table, VPN `0x12345`, frame `0x54321`, a block of
all-ones words from `malloc`. -/
theorem C1_translation_round_trip_witness :
    (pt_get_pageframe 0x12345 (pt_update_pagetable (fun _ => 0xFFFFFFFF) 0x12345 0x54321
      (pt_initialize_page_table ⟨fun _ => none, true⟩))).1 = 0x54321 ∧
    (pt_get_pageframe 0x12345 (pt_update_pagetable (fun _ => 0xFFFFFFFF) 0x12345 0x54321
      (pt_initialize_page_table ⟨fun _ => none, true⟩))).2.page_fault = false :=
  C1_translation_round_trip (fun _ => 0xFFFFFFFF) (pt_initialize_page_table ⟨fun _ => none, true⟩)
    0x12345 0x54321 (by decide) (by decide)

/-- C2 (code at the failing input). `pt_update_pagetable 1 5` on the initialized table
allocates the second-level table of first-level index 0 and writes only entry 1; the
block is not cleared, so entry 0 keeps what `malloc` returned.  With a block whose words
are `0x80000007`, `pt_get_pageframe 0` finds the present bit set for VPN 0, which was
never installed: it returns frame 7 and leaves `page_fault` false. -/
theorem C2_fault_on_absence_stale_block :
    (pt_get_pageframe 0 (pt_update_pagetable (fun _ => 0x80000007) 1 5
      (pt_initialize_page_table ⟨fun _ => none, false⟩))).1 = 7 ∧
    (pt_get_pageframe 0 (pt_update_pagetable (fun _ => 0x80000007) 1 5
      (pt_initialize_page_table ⟨fun _ => none, false⟩))).2.page_fault = false := by
  decide

/-! ## TLB: bit fields of the entry written by `tlb_insert` -/

theorem VBIT_MASK_eq : VBIT_MASK = 2 ^ 31 := by decide
theorem RBIT_MASK_eq : RBIT_MASK = 2 ^ 31 := by decide
theorem MBIT_MASK_eq : MBIT_MASK = 2 ^ 30 := by decide
theorem VPAGE_MASK_eq : VPAGE_MASK = 2 ^ 20 - 1 := by decide
theorem PFRAME_MASK_eq : PFRAME_MASK = 2 ^ 20 - 1 := by decide
theorem not32_eq (x : Nat) : not32 x = (2 ^ 32 - 1) ^^^ x := by
  unfold not32; rfl

theorem tlb_insert_cond_false (e : TLB_ENTRY) : tlb_insert_cond e = false := by
  have h1 : cbool (VBIT_MASK == 0) = 0 := by decide
  have h2 : cbool (RBIT_MASK == 0) = 0 := by decide
  simp [tlb_insert_cond, h1, h2]

theorem tlb_insert_scan_none (l : List TLB_ENTRY) (i : Nat) : tlb_insert_scan l i = none := by
  induction l generalizing i with
  | nil => rfl
  | cons e rest ih => simp [tlb_insert_scan, tlb_insert_cond_false, ih]

theorem insert_entry_vbit (v f m r : Nat) (e : TLB_ENTRY) :
    (tlb_insert_entry v f m r e).vbit_and_vpage &&& VBIT_MASK = VBIT_MASK := by
  simp only [tlb_insert_entry, VBIT_MASK_eq, VPAGE_MASK_eq, not32_eq]
  apply Nat.eq_of_testBit_eq
  intro i
  simp only [Nat.testBit_and, Nat.testBit_or, Nat.testBit_xor, Nat.testBit_two_pow,
    Nat.testBit_two_pow_sub_one]
  by_cases h : 31 = i
  · subst h; simp
  · simp [h]

theorem insert_entry_vpage (v f m r : Nat) (e : TLB_ENTRY) :
    (tlb_insert_entry v f m r e).vbit_and_vpage &&& VPAGE_MASK = v % 2 ^ 20 := by
  simp only [tlb_insert_entry, VBIT_MASK_eq, VPAGE_MASK_eq, not32_eq]
  apply Nat.eq_of_testBit_eq
  intro i
  simp only [Nat.testBit_and, Nat.testBit_or, Nat.testBit_xor, Nat.testBit_two_pow,
    Nat.testBit_two_pow_sub_one, Nat.testBit_mod_two_pow]
  by_cases h : i < 20
  · have : i < 32 := by omega
    simp [h, this]
  · simp [h]

theorem insert_entry_pframe (v f m r : Nat) (e : TLB_ENTRY) :
    (tlb_insert_entry v f m r e).mr_pframe &&& PFRAME_MASK = f % 2 ^ 20 := by
  simp only [tlb_insert_entry, RBIT_MASK_eq, MBIT_MASK_eq, PFRAME_MASK_eq, not32_eq]
  apply Nat.eq_of_testBit_eq
  intro i
  simp only [Nat.testBit_and, Nat.testBit_or, Nat.testBit_xor, Nat.testBit_two_pow,
    Nat.testBit_two_pow_sub_one, Nat.testBit_mod_two_pow]
  by_cases h : i < 20
  · have : i < 32 := by omega
    simp [h, this]
  · simp [h]

theorem insert_entry_mbit (v f m r : Nat) (e : TLB_ENTRY) :
    (tlb_insert_entry v f m r e).mr_pframe.testBit 30 = false := by
  simp only [tlb_insert_entry, RBIT_MASK_eq, MBIT_MASK_eq, PFRAME_MASK_eq, not32_eq, shl32]
  simp only [Nat.testBit_and, Nat.testBit_or, Nat.testBit_xor, Nat.testBit_two_pow,
    Nat.testBit_two_pow_sub_one, Nat.testBit_mod_two_pow, Nat.testBit_shiftLeft]
  simp

theorem insert_entry_rbit (v f m r : Nat) (e : TLB_ENTRY) (hr : r < 2) :
    (tlb_insert_entry v f m r e).mr_pframe.testBit 31 = false := by
  simp only [tlb_insert_entry, RBIT_MASK_eq, MBIT_MASK_eq, PFRAME_MASK_eq, not32_eq, shl32]
  have : r.testBit 1 = false := testBit_high_of_lt r 1 1 hr (le_refl _)
  simp only [Nat.testBit_and, Nat.testBit_or, Nat.testBit_xor, Nat.testBit_two_pow,
    Nat.testBit_two_pow_sub_one, Nat.testBit_mod_two_pow, Nat.testBit_shiftLeft]
  simp [this]


/-! ## TLB: the operations -/

theorem tlb_insert_eq (v f m r : Nat) (s : TLB) :
    tlb_insert v f m r s =
      { tlb := s.tlb.set s.clock_hand
          (tlb_insert_entry v f m r (s.tlb.getD s.clock_hand default))
        clock_hand := if s.clock_hand + 1 > s.tlb.length - 1 then 0 else s.clock_hand + 1
        tlb_miss := s.tlb_miss
        mmu_calls := s.mmu_calls ++
          (if ((s.tlb.getD s.clock_hand default).vbit_and_vpage &&& VBIT_MASK) ≠ 0 then
            tlb_notify (s.tlb.getD s.clock_hand default) else []) } := by
  simp [tlb_insert, tlb_insert_scan_none, TLB.num_tlb_entries]

theorem insert_entry_caches (v f m r : Nat) (e : TLB_ENTRY) (hv : v < 2 ^ 20) :
    (tlb_insert_entry v f m r e).caches v := by
  constructor
  · rw [insert_entry_vbit]; decide
  · rw [insert_entry_vpage, Nat.mod_eq_of_lt hv]

theorem tlb_lookup_loop_length (v : Nat) (op : OPERATION) (l : List TLB_ENTRY) (miss : Bool) :
    (tlb_lookup_loop v op l miss).2.1.length = l.length := by
  induction l generalizing miss with
  | nil => rfl
  | cons e rest ih =>
    unfold tlb_lookup_loop
    split
    · simp
    · simp [ih]

theorem tlb_lookup_loop_miss_iff (v : Nat) (op : OPERATION) (l : List TLB_ENTRY)
    (miss : Bool) :
    (tlb_lookup_loop v op l miss).2.2 = true ↔
      (∀ e ∈ l, ¬ e.caches v) ∧ (l = [] → miss = true) := by
  induction l generalizing miss with
  | nil => simp [tlb_lookup_loop]
  | cons e rest ih =>
    unfold tlb_lookup_loop
    split
    · rename_i h
      have : e.caches v := ⟨h.2, h.1⟩
      simp [this]
    · rename_i h
      have hn : ¬ e.caches v := fun hc => h ⟨hc.2, hc.1⟩
      simp [ih, hn]

theorem tlb_lookup_loop_hit (v : Nat) (op : OPERATION) (pre : List TLB_ENTRY)
    (e : TLB_ENTRY) (post : List TLB_ENTRY) (miss : Bool)
    (hpre : ∀ x ∈ pre, ¬ x.caches v) (he : e.caches v) :
    tlb_lookup_loop v op (pre ++ e :: post) miss =
      (some (tlb_hit_word op e.mr_pframe &&& PFRAME_MASK),
        pre ++ { e with mr_pframe := tlb_hit_word op e.mr_pframe } :: post, false) := by
  induction pre generalizing miss with
  | nil =>
    have h : (e.vbit_and_vpage &&& VPAGE_MASK) = v ∧ (e.vbit_and_vpage &&& VBIT_MASK) ≠ 0 :=
      ⟨he.2, he.1⟩
    simp only [List.nil_append, tlb_lookup_loop, tlb_hit_word]
    rw [if_pos h]
  | cons x rest ih =>
    have hx : ¬ ((x.vbit_and_vpage &&& VPAGE_MASK) = v ∧ (x.vbit_and_vpage &&& VBIT_MASK) ≠ 0) :=
      fun h => hpre x (List.mem_cons_self _ _) ⟨h.2, h.1⟩
    have ih1 := ih true (fun y hy => hpre y (List.mem_cons_of_mem _ hy))
    rw [List.cons_append, tlb_lookup_loop, if_neg hx, ih1]
    rfl

theorem tlb_hit_word_pframe (op : OPERATION) (mr : Nat) :
    tlb_hit_word op mr &&& PFRAME_MASK = mr &&& PFRAME_MASK := by
  unfold tlb_hit_word
  split <;>
  · simp only [RBIT_MASK_eq, MBIT_MASK_eq, PFRAME_MASK_eq]
    apply Nat.eq_of_testBit_eq
    intro i
    simp only [Nat.testBit_and, Nat.testBit_or, Nat.testBit_two_pow, Nat.testBit_two_pow_sub_one]
    by_cases h : i < 20
    · have h1 : ¬ 31 = i := by omega
      have h2 : ¬ 30 = i := by omega
      simp [h, h1, h2]
    · simp [h]

theorem tlb_hit_word_rbit (op : OPERATION) (mr : Nat) :
    (tlb_hit_word op mr).testBit 31 = true := by
  unfold tlb_hit_word
  split <;>
  · simp only [RBIT_MASK_eq, MBIT_MASK_eq, Nat.testBit_or, Nat.testBit_two_pow]
    simp

theorem tlb_hit_word_mbit (mr : Nat) :
    (tlb_hit_word OPERATION.STORE mr).testBit 30 = true := by
  simp only [tlb_hit_word, if_true, RBIT_MASK_eq, MBIT_MASK_eq, Nat.testBit_or,
    Nat.testBit_two_pow]
  simp

/-- The clock hand is 0 or an index into the array. -/
theorem tlb_run_clock_hand (ops : List TLB_OP) (s : TLB)
    (h : s.clock_hand = 0 ∨ s.clock_hand < s.tlb.length) :
    (tlb_run ops s).clock_hand = 0 ∨ (tlb_run ops s).clock_hand < (tlb_run ops s).tlb.length := by
  induction ops generalizing s with
  | nil => exact h
  | cons o ops ih =>
    apply ih
    cases o with
    | insert v f m r =>
      simp only [TLB_OP.apply, tlb_insert_eq, List.length_set]
      by_cases hc : s.clock_hand + 1 > s.tlb.length - 1
      · simp [hc]
      · right; simp only [hc, if_false]; omega
    | lookup v op => simpa [TLB_OP.apply, tlb_lookup, tlb_lookup_loop_length] using h
    | clear_all => simpa [TLB_OP.apply, tlb_clear_all] using h
    | clear_all_R_bits => simpa [TLB_OP.apply, tlb_clear_all_R_bits] using h
    | clear_entry v => simpa [TLB_OP.apply, tlb_clear_entry] using h
    | write_back => simpa [TLB_OP.apply, tlb_write_back] using h

theorem reachable_clock_hand (s : TLB) (hs : s.Reachable) (hcap : 1 ≤ s.num_tlb_entries) :
    s.clock_hand < s.tlb.length := by
  obtain ⟨mem, ops, rfl⟩ := hs
  have h := tlb_run_clock_hand ops ( tlb_initialize mem TLB.boot) (Or.inl rfl)
  unfold TLB.num_tlb_entries at hcap
  omega

theorem and_two_pow_eq (x k : Nat) : x &&& 2 ^ k = if x.testBit k then 2 ^ k else 0 := by
  apply Nat.eq_of_testBit_eq
  intro i
  by_cases hx : x.testBit k = true
  · simp only [hx, if_true, Nat.testBit_and, Nat.testBit_two_pow]
    by_cases hi : k = i
    · subst hi; simp [hx]
    · simp [hi]
  · simp only [hx, Nat.testBit_and, Nat.testBit_two_pow]
    by_cases hi : k = i
    · subst hi; simp [hx]
    · simp [hi]

theorem getElem?_append_cons_length {α : Type} (pre : List α) (x : α) (post : List α) :
    (pre ++ x :: post)[pre.length]? = some x := by
  rw [List.getElem?_append_right (le_refl _), Nat.sub_self]
  simp

/-! ## TLB: lookup after insert (C3) -/

/-- C3 (counterexample). In a 2-entry TLB reached by `tlb_initialize` and
`tlb_insert(5, 10, 0, 0)`, the call `tlb_insert(5, 20, 0, 0)` writes slot 1 while slot 0
still caches VPN 5: `tlb_lookup(5, LOAD)` then returns 10, the frame of slot 0, not the
frame 20 just inserted. -/
theorem C3_counterexample :
    (tlb_run [TLB_OP.insert 5 10 0 0] ( tlb_initialize [⟨0, 0⟩, ⟨0, 0⟩] TLB.boot)).Reachable ∧
    (tlb_lookup 5 OPERATION.LOAD (tlb_insert 5 20 0 0
      (tlb_run [TLB_OP.insert 5 10 0 0] ( tlb_initialize [⟨0, 0⟩, ⟨0, 0⟩] TLB.boot)))).1
        = some 10 ∧
    (tlb_lookup 5 OPERATION.LOAD (tlb_insert 5 20 0 0
      (tlb_run [TLB_OP.insert 5 10 0 0] ( tlb_initialize [⟨0, 0⟩, ⟨0, 0⟩] TLB.boot)))).1
        ≠ some 20 :=
  ⟨⟨_, _, rfl⟩, by decide, by decide⟩

/-- C3 (amended). For every TLB of capacity at least 1 reached from `tlb_initialize`
through the operations of the module, and all `v, f < 2^20`, if no slot before the clock
hand caches `v`, then after `tlb_insert(v, f, 0, 0)` a call `tlb_lookup(v, op)` returns
`f`, leaves `tlb_miss` false and leaves the reference bit (bit 31 of the second word) of
the entry just written, which caches `v`, set; its modify bit (bit 30) is set after a
STORE and clear after a LOAD. -/
theorem C3_hit_after_insert (s : TLB) (v f : Nat) (hs : s.Reachable)
    (hcap : 1 ≤ s.num_tlb_entries) (hv : v < 2 ^ 20) (hf : f < 2 ^ 20)
    (hpre : ∀ e ∈ s.tlb.take s.clock_hand, ¬ e.caches v) (op : OPERATION) :
    (tlb_lookup v op (tlb_insert v f 0 0 s)).1 = some f ∧
    (tlb_lookup v op (tlb_insert v f 0 0 s)).2.tlb_miss = false ∧
    ∃ e, (tlb_lookup v op (tlb_insert v f 0 0 s)).2.tlb[s.clock_hand]? = some e ∧
      e.caches v ∧ e.mr_pframe.testBit 31 = true ∧
      (e.mr_pframe.testBit 30 = true ↔ op = OPERATION.STORE) := by
  have hh := reachable_clock_hand s hs hcap
  have hset : ∀ e1, s.tlb.set s.clock_hand e1
      = s.tlb.take s.clock_hand ++ e1 :: s.tlb.drop (s.clock_hand + 1) := by
    intro e1
    rw [List.set_eq_take_append_cons_drop, if_pos hh]
  have hc := insert_entry_caches v f 0 0 (s.tlb.getD s.clock_hand default) hv
  simp only [tlb_lookup, tlb_insert_eq, hset]
  rw [tlb_lookup_loop_hit v op _ _ _ _ hpre hc]
  refine ⟨?_, rfl, ?_⟩
  · simp only [tlb_hit_word_pframe, insert_entry_pframe, Nat.mod_eq_of_lt hf]
  · refine ⟨{ tlb_insert_entry v f 0 0 (s.tlb.getD s.clock_hand default) with
        mr_pframe := tlb_hit_word op
          (tlb_insert_entry v f 0 0 (s.tlb.getD s.clock_hand default)).mr_pframe },
      ?_, hc, tlb_hit_word_rbit _ _, ?_⟩
    · have hl : (s.tlb.take s.clock_hand).length = s.clock_hand := by
        rw [List.length_take]; omega
      have hg := getElem?_append_cons_length (s.tlb.take s.clock_hand)
        ({ tlb_insert_entry v f 0 0 (s.tlb.getD s.clock_hand default) with
          mr_pframe := tlb_hit_word op
            (tlb_insert_entry v f 0 0 (s.tlb.getD s.clock_hand default)).mr_pframe })
        (s.tlb.drop (s.clock_hand + 1))
      rw [hl] at hg
      exact hg
    · have hm := insert_entry_mbit v f 0 0 (s.tlb.getD s.clock_hand default)
      cases op with
      | LOAD =>
        show ((tlb_hit_word OPERATION.LOAD _).testBit 30 = true ↔ _)
        rw [tlb_hit_word, if_neg (by decide), RBIT_MASK_eq, Nat.testBit_or, hm,
          Nat.testBit_two_pow]
        simp
      | STORE => simp [tlb_hit_word_mbit]

/-- C3 (witness): a freshly initialized 1-entry TLB, VPN 5, frame 10, a STORE. -/
theorem C3_hit_after_insert_witness :
    (tlb_lookup 5 OPERATION.STORE
      (tlb_insert 5 10 0 0 ( tlb_initialize [⟨0, 0⟩] TLB.boot))).1 = some 10 :=
  (C3_hit_after_insert ( tlb_initialize [⟨0, 0⟩] TLB.boot) 5 10 ⟨[⟨0, 0⟩], [], rfl⟩
    (by decide) (by decide) (by decide) (by decide) OPERATION.STORE).1

/-! ## TLB: the miss flag (C4) -/

/-- C4. Miss-flag contract: for every TLB state with at least one entry, every `vpn` and
every operation, after `tlb_lookup(vpn, op)` the flag `tlb_miss` is true if and only if,
in the state before the call, no entry had its valid bit set together with a VPN field
equal to `vpn`.  The value of `tlb_miss` before the call and the entries that precede a
match play no part. -/
theorem C4_miss_flag_contract (s : TLB) (vpn : Nat) (op : OPERATION)
    (hcap : 1 ≤ s.num_tlb_entries) :
    (tlb_lookup vpn op s).2.tlb_miss = true ↔
      ¬ ∃ e ∈ s.tlb,
        (e.vbit_and_vpage &&& VBIT_MASK) ≠ 0 ∧ (e.vbit_and_vpage &&& VPAGE_MASK) = vpn := by
  have hne : s.tlb ≠ [] := by
    intro h
    simp [TLB.num_tlb_entries, h] at hcap
  simp only [tlb_lookup, tlb_lookup_loop_miss_iff, TLB_ENTRY.caches]
  constructor
  · rintro ⟨h, _⟩ ⟨e, he, hc⟩
    exact h e he hc
  · intro h
    exact ⟨fun e he hc => h ⟨e, he, hc⟩, fun h0 => absurd h0 hne⟩

/-- C4 (witness): a 2-entry TLB whose second slot caches VPN 9, looked up with the flag
initially true: the flag ends false. -/
theorem C4_miss_flag_contract_witness :
    (tlb_lookup 9 OPERATION.LOAD ⟨[⟨0x80000004, 1⟩, ⟨0x80000009, 2⟩], 0, true, []⟩).2.tlb_miss
      = false := by
  have h := C4_miss_flag_contract ⟨[⟨0x80000004, 1⟩, ⟨0x80000009, 2⟩], 0, true, []⟩ 9
    OPERATION.LOAD (by decide)
  cases hm : (tlb_lookup 9 OPERATION.LOAD
      ⟨[⟨0x80000004, 1⟩, ⟨0x80000009, 2⟩], 0, true, []⟩).2.tlb_miss with
  | false => rfl
  | true =>
    exact absurd ⟨⟨0x80000009, 2⟩, by decide, by decide, by decide⟩ (h.mp hm)

/-! ## TLB: victim selection (C5) and stored bits (C6) -/

/-- C5 (code at the failing input). Capacity 2, A = 1, B = 2, C = 3: after
`insert(1,10,0,0)`, `insert(2,20,0,0)`, `lookup(1, LOAD)` the clock hand is 0, slot 0
caches A with its reference bit set and slot 1 caches B with its reference bit clear.
The scan of `tlb_insert` never breaks (its condition is parsed as
`word & (MASK == 0)`), so `insert(3,30,0,0)` writes slot 0: it replaces A's entry, not
B's, notifies the bitmaps for frame 10 (reference argument `0x80000000`, modify
argument 0), and afterwards `lookup(2, LOAD)` hits with frame 20 while `lookup(1, LOAD)`
misses. -/
theorem C5_nru_scenario_evicts_referenced :
    (tlb_run [TLB_OP.insert 1 10 0 0, TLB_OP.insert 2 20 0 0, TLB_OP.lookup 1 OPERATION.LOAD]
      ( tlb_initialize [⟨0, 0⟩, ⟨0, 0⟩] TLB.boot))
      = ⟨[⟨0x80000001, 0x8000000A⟩, ⟨0x80000002, 0x00000014⟩], 0, false, []⟩ ∧
    tlb_insert 3 30 0 0
      ⟨[⟨0x80000001, 0x8000000A⟩, ⟨0x80000002, 0x00000014⟩], 0, false, []⟩
      = ⟨[⟨0x80000003, 0x0000001E⟩, ⟨0x80000002, 0x00000014⟩], 1, false,
          [MMU_CALL.mmu_modify_rbit_bitmap 10 0x80000000,
            MMU_CALL.mmu_modify_mbit_bitmap 10 0]⟩ ∧
    (tlb_lookup 2 OPERATION.LOAD (tlb_insert 3 30 0 0
      ⟨[⟨0x80000001, 0x8000000A⟩, ⟨0x80000002, 0x00000014⟩], 0, false, []⟩)).1 = some 20 ∧
    (tlb_lookup 2 OPERATION.LOAD (tlb_insert 3 30 0 0
      ⟨[⟨0x80000001, 0x8000000A⟩, ⟨0x80000002, 0x00000014⟩], 0, false, []⟩)).2.tlb_miss
        = false ∧
    (tlb_lookup 1 OPERATION.LOAD (tlb_insert 3 30 0 0
      ⟨[⟨0x80000001, 0x8000000A⟩, ⟨0x80000002, 0x00000014⟩], 0, false, []⟩)).2.tlb_miss
        = true := by
  decide

/-- C6 (code at the failing input). `tlb_insert(1, 2, 1, 1)` on a freshly initialized
1-entry TLB: the slot written has valid bit 1, VPN 1 and PFN 2, but its second word is
`0x00000002`: modify bit (bit 30) and reference bit (bit 31) are both 0 although
`new_mbit = new_rbit = 1`.  Lines 141 and 145 shift `new_mbit` by 31 and `new_rbit` by
30, the positions of the other bit, so each mask clears the bit it was meant to copy. -/
theorem C6_insert_drops_m_and_r :
    (tlb_insert 1 2 1 1 ( tlb_initialize [⟨0, 0⟩] TLB.boot)).tlb = [⟨0x80000001, 0x00000002⟩] ∧
    Nat.testBit 0x00000002 30 = false ∧ Nat.testBit 0x00000002 31 = false := by
  decide

/-! ## TLB: write-back (C7, C8) -/

/-- C7 (counterexample). A 1-entry TLB after `insert(3,7,0,0)` and `lookup(3, STORE)`
holds a valid entry for frame 7 with reference and modify bits set.  `insert(4,8,0,0)`
overwrites it and makes one call of each kind for frame 7, but the bit arguments are
`0x80000000` and `0x40000000`, the masked words, not 1. -/
theorem C7_counterexample :
    tlb_run [TLB_OP.insert 3 7 0 0, TLB_OP.lookup 3 OPERATION.STORE]
      ( tlb_initialize [⟨0, 0⟩] TLB.boot) = ⟨[⟨0x80000003, 0xC0000007⟩], 0, false, []⟩ ∧
    (tlb_insert 4 8 0 0 ⟨[⟨0x80000003, 0xC0000007⟩], 0, false, []⟩).mmu_calls
      = [MMU_CALL.mmu_modify_rbit_bitmap 7 0x80000000,
          MMU_CALL.mmu_modify_mbit_bitmap 7 0x40000000] ∧
    (tlb_insert 4 8 0 0 ⟨[⟨0x80000003, 0xC0000007⟩], 0, false, []⟩).mmu_calls
      ≠ [MMU_CALL.mmu_modify_rbit_bitmap 7 1, MMU_CALL.mmu_modify_mbit_bitmap 7 1] := by
  decide

theorem tlb_notify_eq (e : TLB_ENTRY) :
    tlb_notify e =
      [MMU_CALL.mmu_modify_rbit_bitmap (e.mr_pframe % 2 ^ 20)
          (if e.mr_pframe.testBit 31 then 0x80000000 else 0),
        MMU_CALL.mmu_modify_mbit_bitmap (e.mr_pframe % 2 ^ 20)
          (if e.mr_pframe.testBit 30 then 0x40000000 else 0)] := by
  simp only [tlb_notify, and_PFRAME_MASK, RBIT_MASK_eq, MBIT_MASK_eq, and_two_pow_eq]
  norm_num

/-- C7 (amended). Write-back on eviction: for every TLB state whose clock hand points at
an entry `e` (so the capacity is at least 1), `tlb_insert` overwrites that slot and, when
the valid bit of `e` is set, issues exactly one `mmu_modify_rbit_bitmap` call followed by
exactly one `mmu_modify_mbit_bitmap` call, both for the PFN cached in `e` (the low 20
bits of its second word); the bit argument is the masked word, `0x80000000` when the
reference bit of `e` is set, resp. `0x40000000` when its modify bit is set, and 0 when
the bit is clear.  When the valid bit of `e` is clear it issues no call. -/
theorem C7_write_back_on_eviction (s : TLB) (v f m r : Nat) (e : TLB_ENTRY)
    (he : s.tlb[s.clock_hand]? = some e) :
    (tlb_insert v f m r s).tlb = s.tlb.set s.clock_hand (tlb_insert_entry v f m r e) ∧
    (tlb_insert v f m r s).mmu_calls = s.mmu_calls ++
      (if e.vbit_and_vpage.testBit 31 then
        [MMU_CALL.mmu_modify_rbit_bitmap (e.mr_pframe % 2 ^ 20)
            (if e.mr_pframe.testBit 31 then 0x80000000 else 0),
          MMU_CALL.mmu_modify_mbit_bitmap (e.mr_pframe % 2 ^ 20)
            (if e.mr_pframe.testBit 30 then 0x40000000 else 0)]
      else []) := by
  have hg : s.tlb.getD s.clock_hand default = e := by
    rw [List.getD_eq_getElem?_getD, he]; rfl
  rw [tlb_insert_eq, hg, tlb_notify_eq]
  refine ⟨rfl, ?_⟩
  show s.mmu_calls ++ _ = _
  congr 1
  rw [VBIT_MASK_eq, and_two_pow_eq]
  by_cases hb : e.vbit_and_vpage.testBit 31 = true <;> simp [hb]

/-- C7 (witness): the 1-entry TLB holding a valid, referenced, modified entry. -/
theorem C7_write_back_on_eviction_witness :
    (tlb_insert 4 8 0 0 ⟨[⟨0x80000003, 0xC0000007⟩], 0, false, []⟩).mmu_calls =
      [] ++ (if Nat.testBit 0x80000003 31 then
        [MMU_CALL.mmu_modify_rbit_bitmap (0xC0000007 % 2 ^ 20)
            (if Nat.testBit 0xC0000007 31 then 0x80000000 else 0),
          MMU_CALL.mmu_modify_mbit_bitmap (0xC0000007 % 2 ^ 20)
            (if Nat.testBit 0xC0000007 30 then 0x40000000 else 0)]
      else []) :=
  (C7_write_back_on_eviction ⟨[⟨0x80000003, 0xC0000007⟩], 0, false, []⟩ 4 8 0 0
    ⟨0x80000003, 0xC0000007⟩ rfl).2

/-- C8 (counterexample). On the 1-entry TLB holding a valid entry for frame 7 with
reference and modify bits set, `tlb_write_back` makes one call of each kind for frame 7
whose bit arguments are `0x80000000` and `0x40000000`, not 1. -/
theorem C8_counterexample :
    (tlb_write_back ⟨[⟨0x80000003, 0xC0000007⟩], 0, false, []⟩).mmu_calls
      = [MMU_CALL.mmu_modify_rbit_bitmap 7 0x80000000,
          MMU_CALL.mmu_modify_mbit_bitmap 7 0x40000000] ∧
    (tlb_write_back ⟨[⟨0x80000003, 0xC0000007⟩], 0, false, []⟩).mmu_calls
      ≠ [MMU_CALL.mmu_modify_rbit_bitmap 7 1, MMU_CALL.mmu_modify_mbit_bitmap 7 1] := by
  decide

theorem tlb_write_back_loop_eq (l : List TLB_ENTRY) :
    tlb_write_back_loop l =
      ((l.filter fun e => e.vbit_and_vpage.testBit 31).map fun e =>
        [MMU_CALL.mmu_modify_rbit_bitmap (e.mr_pframe % 2 ^ 20)
            (if e.mr_pframe.testBit 31 then 0x80000000 else 0),
          MMU_CALL.mmu_modify_mbit_bitmap (e.mr_pframe % 2 ^ 20)
            (if e.mr_pframe.testBit 30 then 0x40000000 else 0)]).flatten := by
  induction l with
  | nil => rfl
  | cons e rest ih =>
    rw [tlb_write_back_loop, ih, tlb_notify_eq, VBIT_MASK_eq, and_two_pow_eq]
    by_cases hb : e.vbit_and_vpage.testBit 31 = true <;> simp [hb, List.filter_cons]

/-- C8 (amended). `tlb_write_back` flushes without evicting: for every TLB state it
issues, for each entry whose valid bit is set, in index order, and for no other entry,
exactly one reference-bit call followed by one modify-bit call for that entry's PFN; the
bit argument is the masked word, `0x80000000` for a set reference bit, `0x40000000` for
a set modify bit, and 0 for a clear bit.  It leaves every TLB entry, the clock hand and
`tlb_miss` unchanged. -/
theorem C8_write_back_flushes (s : TLB) :
    (tlb_write_back s).tlb = s.tlb ∧
    (tlb_write_back s).clock_hand = s.clock_hand ∧
    (tlb_write_back s).tlb_miss = s.tlb_miss ∧
    (tlb_write_back s).mmu_calls = s.mmu_calls ++
      ((s.tlb.filter fun e => e.vbit_and_vpage.testBit 31).map fun e =>
        [MMU_CALL.mmu_modify_rbit_bitmap (e.mr_pframe % 2 ^ 20)
            (if e.mr_pframe.testBit 31 then 0x80000000 else 0),
          MMU_CALL.mmu_modify_mbit_bitmap (e.mr_pframe % 2 ^ 20)
            (if e.mr_pframe.testBit 30 then 0x40000000 else 0)]).flatten := by
  refine ⟨rfl, rfl, rfl, ?_⟩
  rw [← tlb_write_back_loop_eq]
  rfl

/-! ## TLB: uniqueness of the cached VPN (C10) -/

theorem clear_vbit_not_caches (w mr vpn : Nat) :
    ¬ TLB_ENTRY.caches ⟨w &&& not32 VBIT_MASK, mr⟩ vpn := by
  intro h
  apply h.1
  show (w &&& not32 VBIT_MASK) &&& VBIT_MASK = 0
  rw [VBIT_MASK_eq, not32_eq]
  apply Nat.eq_of_testBit_eq
  intro i
  simp only [Nat.testBit_and, Nat.testBit_xor, Nat.testBit_two_pow, Nat.testBit_two_pow_sub_one,
    Nat.zero_testBit]
  by_cases hi : 31 = i
  · subst hi; simp
  · simp [hi]

theorem tlb_lookup_loop_words (v : Nat) (op : OPERATION) (l : List TLB_ENTRY) (miss : Bool) :
    (tlb_lookup_loop v op l miss).2.1.map TLB_ENTRY.vbit_and_vpage
      = l.map TLB_ENTRY.vbit_and_vpage := by
  induction l generalizing miss with
  | nil => rfl
  | cons e rest ih =>
    unfold tlb_lookup_loop
    split
    · rfl
    · simp [ih]

theorem countP_caches_words (vpn : Nat) (l : List TLB_ENTRY) :
    l.countP (fun e => decide (e.caches vpn)) =
      (l.map TLB_ENTRY.vbit_and_vpage).countP
        (fun w => decide (TLB_ENTRY.caches ⟨w, 0⟩ vpn)) := by
  rw [List.countP_map]
  rfl

theorem tlb_initialize_not_caches (mem : List TLB_ENTRY) (s : TLB) (vpn : Nat) :
    ∀ e ∈ ( tlb_initialize mem s).tlb, ¬ e.caches vpn := by
  intro e he
  simp only [ tlb_initialize, tlb_clear_all, List.mem_map] at he
  obtain ⟨a, _, rfl⟩ := he
  exact clear_vbit_not_caches _ _ _

theorem TLB_OP.apply_unique (o : TLB_OP) (s : TLB) (hu : s.unique)
    (hg : match o with
      | TLB_OP.insert v _ _ _ => v < 2 ^ 20 ∧ ∀ e ∈ s.tlb, ¬ e.caches v
      | _ => True) :
    (o.apply s).unique := by
  intro vpn
  cases o with
  | insert v f m r =>
    obtain ⟨hv, hnone⟩ := hg
    simp only [TLB_OP.apply, tlb_insert_eq]
    by_cases hlt : s.clock_hand < s.tlb.length
    · rw [List.countP_set _ _ _ _ hlt]
      by_cases hvpn : vpn = v
      · subst hvpn
        have h0 : s.tlb.countP (fun e => decide (e.caches vpn)) = 0 := by
          rw [List.countP_eq_zero]
          intro a ha
          simpa using hnone a ha
        rw [h0, Nat.zero_sub, Nat.zero_add]
        split <;> omega
      · have hne : ¬ (tlb_insert_entry v f m r (s.tlb.getD s.clock_hand default)).caches vpn := by
          intro hc
          have h2 := hc.2
          rw [insert_entry_vpage, Nat.mod_eq_of_lt hv] at h2
          exact hvpn h2.symm
        have := hu vpn
        simp only [hne, decide_False, Bool.false_eq_true, if_false]
        omega
    · rw [List.set_eq_of_length_le (by omega)]
      exact hu vpn
  | lookup v op =>
    simp only [TLB_OP.apply, tlb_lookup]
    rw [countP_caches_words, tlb_lookup_loop_words, ← countP_caches_words]
    exact hu vpn
  | clear_all =>
    simp only [TLB_OP.apply, tlb_clear_all, List.countP_map]
    refine le_trans (List.countP_mono_left ?_) (hu vpn)
    intro e _ hc
    exact absurd (of_decide_eq_true hc) (clear_vbit_not_caches _ _ _)
  | clear_all_R_bits =>
    simp only [TLB_OP.apply, tlb_clear_all_R_bits, List.countP_map]
    exact hu vpn
  | clear_entry v =>
    simp only [TLB_OP.apply, tlb_clear_entry, List.countP_map]
    refine le_trans (List.countP_mono_left ?_) (hu vpn)
    intro e _ hc
    simp only [Function.comp] at hc
    split at hc
    · exact absurd (of_decide_eq_true hc) (clear_vbit_not_caches _ _ _)
    · exact hc
  | write_back => exact hu vpn

theorem tlb_run_unique (ops : List TLB_OP) (s : TLB) (hu : s.unique)
    (hg : tlb_insert_guarded ops s) : (tlb_run ops s).unique := by
  induction ops generalizing s with
  | nil => exact hu
  | cons o ops ih => exact ih (o.apply s) (o.apply_unique s hu hg.1) hg.2

/-- C10 (counterexample). The 2-entry TLB after `tlb_initialize`, `tlb_insert(5,10,0,0)`
and `tlb_insert(5,20,0,0)` is reachable through the operations of the module, and both of
its entries are valid with VPN field 5. -/
theorem C10_counterexample :
    (tlb_run [TLB_OP.insert 5 10 0 0, TLB_OP.insert 5 20 0 0]
      ( tlb_initialize [⟨0, 0⟩, ⟨0, 0⟩] TLB.boot)).Reachable ∧
    (tlb_run [TLB_OP.insert 5 10 0 0, TLB_OP.insert 5 20 0 0]
      ( tlb_initialize [⟨0, 0⟩, ⟨0, 0⟩] TLB.boot)).tlb = [⟨0x80000005, 10⟩, ⟨0x80000005, 20⟩] ∧
    ¬ (tlb_run [TLB_OP.insert 5 10 0 0, TLB_OP.insert 5 20 0 0]
      ( tlb_initialize [⟨0, 0⟩, ⟨0, 0⟩] TLB.boot)).unique :=
  ⟨⟨_, _, rfl⟩, by decide, fun h => absurd (h 5) (by decide)⟩

/-- C10 (amended). VPN uniqueness invariant: in every TLB state reached from
`tlb_initialize` by a sequence of the operations of the module (`tlb_insert`,
`tlb_lookup`, `tlb_clear_all`, `tlb_clear_all_R_bits`, `tlb_clear_entry`,
`tlb_write_back`) in which every `tlb_insert` is called for a VPN below `2^20` that no
valid entry holds at the time of the call, for every VPN there is at most one entry whose
valid bit is set and whose VPN field equals it. -/
theorem C10_vpn_unique_when_guarded (mem : List TLB_ENTRY) (ops : List TLB_OP)
    (hg : tlb_insert_guarded ops ( tlb_initialize mem TLB.boot)) (vpn : Nat) :
    ((tlb_run ops ( tlb_initialize mem TLB.boot)).tlb.filter fun e =>
      decide ((e.vbit_and_vpage &&& VBIT_MASK) ≠ 0 ∧ (e.vbit_and_vpage &&& VPAGE_MASK) = vpn)
      ).length ≤ 1 := by
  have hu : ( tlb_initialize mem TLB.boot).unique := by
    intro w
    have h0 : ( tlb_initialize mem TLB.boot).tlb.countP (fun e => decide (e.caches w)) = 0 := by
      rw [List.countP_eq_zero]
      intro a ha
      simpa using tlb_initialize_not_caches mem TLB.boot w a ha
    omega
  have h := tlb_run_unique ops _ hu hg vpn
  rw [List.countP_eq_length_filter] at h
  exact h

/-- C10 (witness): a 2-entry TLB, VPN 5 inserted, invalidated and inserted again. -/
theorem C10_vpn_unique_when_guarded_witness :
    ((tlb_run [TLB_OP.insert 5 10 0 0, TLB_OP.clear_entry 5, TLB_OP.insert 5 20 0 0]
      ( tlb_initialize [⟨0, 0⟩, ⟨0, 0⟩] TLB.boot)).tlb.filter fun e =>
      decide ((e.vbit_and_vpage &&& VBIT_MASK) ≠ 0 ∧ (e.vbit_and_vpage &&& VPAGE_MASK) = 5)
      ).length ≤ 1 :=
  C10_vpn_unique_when_guarded [⟨0, 0⟩, ⟨0, 0⟩]
    [TLB_OP.insert 5 10 0 0, TLB_OP.clear_entry 5, TLB_OP.insert 5 20 0 0]
    ⟨⟨by decide, by decide⟩, trivial, ⟨by decide, by decide⟩, trivial⟩ 5

/-! ## TLB: capacity-bounded eviction (C9) -/

theorem core_of_caches (e : TLB_ENTRY) (v : Nat) (h : e.caches v) :
    e.core = some (v, e.mr_pframe &&& PFRAME_MASK) := by
  unfold TLB_ENTRY.core
  rw [if_pos h.1, h.2]

theorem core_find_cons_of_not_caches (e : TLB_ENTRY) (v : Nat) (h : ¬ e.caches v)
    (cs : List (Option (Nat × Nat))) : core_find v (e.core :: cs) = core_find v cs := by
  unfold TLB_ENTRY.core
  by_cases hv : (e.vbit_and_vpage &&& VBIT_MASK) ≠ 0
  · rw [if_pos hv]
    have hne : ¬ (e.vbit_and_vpage &&& VPAGE_MASK) = v := fun h2 => h ⟨hv, h2⟩
    simp [core_find, hne]
  · rw [if_neg hv]
    rfl

theorem tlb_lookup_loop_cons_miss (v : Nat) (op : OPERATION) (e : TLB_ENTRY)
    (rest : List TLB_ENTRY) (miss : Bool) (h : ¬ e.caches v) :
    tlb_lookup_loop v op (e :: rest) miss =
      ((tlb_lookup_loop v op rest true).1, e :: (tlb_lookup_loop v op rest true).2.1,
        (tlb_lookup_loop v op rest true).2.2) := by
  have hx : ¬ ((e.vbit_and_vpage &&& VPAGE_MASK) = v ∧ (e.vbit_and_vpage &&& VBIT_MASK) ≠ 0) :=
    fun hc => h ⟨hc.2, hc.1⟩
  rw [tlb_lookup_loop, if_neg hx]

theorem tlb_lookup_loop_result (v : Nat) (op : OPERATION) (l : List TLB_ENTRY) (miss : Bool) :
    (tlb_lookup_loop v op l miss).1 = core_find v (l.map TLB_ENTRY.core) := by
  induction l generalizing miss with
  | nil => rfl
  | cons e rest ih =>
    by_cases h : e.caches v
    · have hh := tlb_lookup_loop_hit v op [] e rest miss (by simp) h
      rw [List.nil_append] at hh
      rw [hh, List.map_cons, core_of_caches e v h, tlb_hit_word_pframe]
      simp [core_find]
    · rw [tlb_lookup_loop_cons_miss v op e rest miss h, List.map_cons,
        core_find_cons_of_not_caches e v h]
      exact ih true

theorem tlb_lookup_loop_cores (v : Nat) (op : OPERATION) (l : List TLB_ENTRY) (miss : Bool) :
    (tlb_lookup_loop v op l miss).2.1.map TLB_ENTRY.core = l.map TLB_ENTRY.core := by
  induction l generalizing miss with
  | nil => rfl
  | cons e rest ih =>
    by_cases h : e.caches v
    · have hh := tlb_lookup_loop_hit v op [] e rest miss (by simp) h
      rw [List.nil_append] at hh
      rw [hh]
      simp only [List.nil_append, List.map_cons, TLB_ENTRY.core, tlb_hit_word_pframe]
    · rw [tlb_lookup_loop_cons_miss v op e rest miss h]
      simp only [List.map_cons, ih true]

theorem core_find_none_iff (v : Nat) (l : List TLB_ENTRY) :
    core_find v (l.map TLB_ENTRY.core) = none ↔ ∀ e ∈ l, ¬ e.caches v := by
  induction l with
  | nil => simp [core_find]
  | cons e rest ih =>
    by_cases h : e.caches v
    · rw [List.map_cons, core_of_caches e v h]
      simp [core_find, h]
    · rw [List.map_cons, core_find_cons_of_not_caches e v h, ih]
      simp [h]

theorem insert_entry_core (v f m r : Nat) (e : TLB_ENTRY) :
    (tlb_insert_entry v f m r e).core = some (v % 2 ^ 20, f % 2 ^ 20) := by
  unfold TLB_ENTRY.core
  rw [insert_entry_vbit, insert_entry_vpage, insert_entry_pframe]
  rfl

theorem tlb_run_cons (o : TLB_OP) (ops : List TLB_OP) (s : TLB) :
    tlb_run (o :: ops) s = tlb_run ops (o.apply s) := rfl

theorem tlb_run_core (ops : List TLB_OP) (s : TLB)
    (hops : ∀ o ∈ ops, o.isInsertOrLookup = true) :
    ((tlb_run ops s).tlb.map TLB_ENTRY.core, (tlb_run ops s).clock_hand) =
      (tlb_inserted ops).foldl core_step (s.tlb.map TLB_ENTRY.core, s.clock_hand) := by
  induction ops generalizing s with
  | nil => rfl
  | cons o ops ih =>
    have ih1 := ih (o.apply s) (fun x hx => hops x (List.mem_cons_of_mem _ hx))
    have ho := hops o (List.mem_cons_self _ _)
    rw [tlb_run_cons]
    cases o with
    | insert v f m r =>
      rw [show tlb_inserted (TLB_OP.insert v f m r :: ops) = (v, f) :: tlb_inserted ops from rfl,
        List.foldl_cons, ih1]
      rw [show TLB_OP.apply (TLB_OP.insert v f m r) s = tlb_insert v f m r s from rfl,
        tlb_insert_eq]
      simp only [List.map_set, insert_entry_core, core_step, List.length_map]
    | lookup v op =>
      rw [show tlb_inserted (TLB_OP.lookup v op :: ops) = tlb_inserted ops from rfl, ih1]
      rw [show TLB_OP.apply (TLB_OP.lookup v op) s = (tlb_lookup v op s).2 from rfl]
      simp only [tlb_lookup, tlb_lookup_loop_cores]
    | clear_all => simp [TLB_OP.isInsertOrLookup] at ho
    | clear_all_R_bits => simp [TLB_OP.isInsertOrLookup] at ho
    | clear_entry v => simp [TLB_OP.isInsertOrLookup] at ho
    | write_back => simp [TLB_OP.isInsertOrLookup] at ho

theorem core_step_fill (c : Nat) (ins : List (Nat × Nat)) (hlen : ins.length ≤ c)
    (hc : 1 ≤ c) :
    ins.foldl core_step (List.replicate c none, 0) =
      (ins.map (fun p => some (p.1 % 2 ^ 20, p.2 % 2 ^ 20))
          ++ List.replicate (c - ins.length) none,
        if ins.length = c then 0 else ins.length) := by
  induction ins using List.reverseRecOn with
  | nil =>
    have : ¬ 0 = c := by omega
    simp [this]
  | append_singleton ins p ih =>
    rw [List.length_append, List.length_singleton] at hlen
    have hk : ins.length < c := by omega
    have hne : ¬ ins.length = c := by omega
    rw [List.foldl_append, ih (by omega), if_neg hne]
    have hrep : List.replicate (c - ins.length) (none : Option (Nat × Nat))
        = none :: List.replicate (c - (ins.length + 1)) none := by
      rw [show c - ins.length = (c - (ins.length + 1)) + 1 by omega, List.replicate_succ]
    simp only [List.foldl_cons, List.foldl_nil, core_step, List.length_append, List.length_map,
      List.length_replicate, List.length_singleton, List.map_append, List.map_cons, List.map_nil]
    rw [hrep]
    have hset : ∀ (l : List (Option (Nat × Nat))) (a x : Option (Nat × Nat))
        (t : List (Option (Nat × Nat))) (n : Nat), l.length = n →
        (l ++ a :: t).set n x = l ++ x :: t := by
      intro l a x t n hn
      subst hn
      induction l with
      | nil => rfl
      | cons b l ihl => simp [ihl]
    rw [hset _ _ _ _ _ (by simp)]
    refine Prod.ext ?_ ?_
    · simp
    · show (if ins.length + 1 > ins.length + (c - ins.length) - 1 then 0 else ins.length + 1) = _
      by_cases h1 : ins.length + 1 = c
      · rw [if_pos (by omega), if_pos h1]
      · rw [if_neg (by omega), if_neg h1]

theorem core_find_of_not_mem (v : Nat) (l : List (Nat × Nat)) (h : v ∉ l.map Prod.fst) :
    core_find v (l.map some) = none := by
  induction l with
  | nil => rfl
  | cons q t ih =>
    rw [List.map_cons, List.mem_cons, not_or] at h
    have hq : ¬ q.1 = v := fun e => h.1 e.symm
    simp only [List.map_cons, core_find, hq, if_false]
    exact ih h.2

theorem core_find_of_mem (l : List (Nat × Nat)) (hn : (l.map Prod.fst).Nodup)
    (p : Nat × Nat) (hp : p ∈ l) : core_find p.1 (l.map some) = some p.2 := by
  induction l with
  | nil => simp at hp
  | cons q t ih =>
    rw [List.map_cons, List.nodup_cons] at hn
    rcases List.mem_cons.mp hp with rfl | hpt
    · simp [core_find]
    · have hq : ¬ q.1 = p.1 := by
        intro e
        exact hn.1 (e ▸ List.mem_map_of_mem Prod.fst hpt)
      simp only [List.map_cons, core_find, hq, if_false]
      exact ih hn.2 hpt

theorem tlb_initialize_core (mem : List TLB_ENTRY) (s : TLB) :
    ( tlb_initialize mem s).tlb.map TLB_ENTRY.core = List.replicate mem.length none := by
  rw [List.eq_replicate_iff]
  refine ⟨by simp [ tlb_initialize, tlb_clear_all], ?_⟩
  intro b hb
  obtain ⟨e, he, rfl⟩ := List.mem_map.mp hb
  have hn := tlb_initialize_not_caches mem s (e.vbit_and_vpage &&& VPAGE_MASK) e he
  unfold TLB_ENTRY.core
  by_cases hv : (e.vbit_and_vpage &&& VBIT_MASK) ≠ 0
  · exact absurd ⟨hv, rfl⟩ hn
  · rw [if_neg hv]

theorem map_norm_eq (l : List (Nat × Nat)) (h : ∀ p ∈ l, p.1 < 2 ^ 20 ∧ p.2 < 2 ^ 20) :
    l.map (fun p => some (p.1 % 2 ^ 20, p.2 % 2 ^ 20)) = l.map some := by
  apply List.map_congr_left
  intro p hp
  rw [Nat.mod_eq_of_lt (h p hp).1, Nat.mod_eq_of_lt (h p hp).2]

/-- The translations held after `capacity + 1` inserts into a fresh TLB: the last pair
in slot 0, the second to the `capacity`-th pair in the slots after it. -/
theorem tlb_run_core_wrap (mem : List TLB_ENTRY) (ops : List TLB_OP)
    (first : Nat × Nat) (mid : List (Nat × Nat)) (last : Nat × Nat)
    (hops : ∀ o ∈ ops, o.isInsertOrLookup = true)
    (hins : tlb_inserted ops = first :: (mid ++ [last]))
    (hlen : mid.length + 1 = mem.length)
    (hbound : ∀ p ∈ first :: (mid ++ [last]), p.1 < 2 ^ 20 ∧ p.2 < 2 ^ 20) :
    (tlb_run ops ( tlb_initialize mem TLB.boot)).tlb.map TLB_ENTRY.core
      = (last :: mid).map some := by
  have h := congrArg Prod.fst (tlb_run_core ops ( tlb_initialize mem TLB.boot) hops)
  simp only at h
  rw [h, hins, tlb_initialize_core,
    show ( tlb_initialize mem TLB.boot).clock_hand = 0 from rfl,
    show first :: (mid ++ [last]) = (first :: mid) ++ [last] from rfl, List.foldl_append,
    core_step_fill mem.length (first :: mid) (by simp [hlen]) (by omega)]
  have hb1 : ∀ p ∈ first :: mid, p.1 < 2 ^ 20 ∧ p.2 < 2 ^ 20 := by
    intro p hp
    apply hbound p
    rcases List.mem_cons.mp hp with rfl | hm
    · exact List.mem_cons_self _ _
    · exact List.mem_cons_of_mem _ (List.mem_append_left _ hm)
  have hb2 := hbound last (List.mem_cons_of_mem _ (List.mem_append_right _ (List.mem_singleton_self _)))
  rw [map_norm_eq _ hb1]
  simp only [List.foldl_cons, List.foldl_nil, core_step, List.length_cons, hlen, if_true,
    Nat.sub_self, List.replicate_zero, List.append_nil, List.map_cons, List.set_cons_zero,
    Nat.mod_eq_of_lt hb2.1, Nat.mod_eq_of_lt hb2.2]

/-- C9 (counterexample). Capacity 1: `tlb_insert(1, 5, 0, 0)` then
`tlb_insert(2, 0x100000, 0, 0)`, two distinct VPNs below `2^20`.  VPN 2 is still cached,
but `tlb_lookup(2, LOAD)` returns 0, the low 20 bits of its frame, not the frame
`0x100000` it was inserted with. -/
theorem C9_counterexample :
    (tlb_lookup 2 OPERATION.LOAD
      (tlb_run [TLB_OP.insert 1 5 0 0, TLB_OP.insert 2 0x100000 0 0]
        ( tlb_initialize [⟨0, 0⟩] TLB.boot))).1 = some 0 ∧
    (tlb_lookup 2 OPERATION.LOAD
      (tlb_run [TLB_OP.insert 1 5 0 0, TLB_OP.insert 2 0x100000 0 0]
        ( tlb_initialize [⟨0, 0⟩] TLB.boot))).1 ≠ some 0x100000 := by
  decide

/-- What the code as written does on `capacity + 1` inserts of pairwise distinct 20-bit
VPNs with 20-bit PFNs into a fresh TLB, interleaved with lookups: the scan of
`tlb_insert` never moves the clock hand, so the last insert lands on slot 0; the VPN
inserted first is not cached and a lookup of any VPN inserted later returns its frame. -/
theorem tlb_run_wrap_lookup (c : Nat) (mem : List TLB_ENTRY) (ops : List TLB_OP)
    (first : Nat × Nat) (rest : List (Nat × Nat))
    (hc : 1 ≤ c) (hmem : mem.length = c)
    (hops : ∀ o ∈ ops, o.isInsertOrLookup = true)
    (hins : tlb_inserted ops = first :: rest) (hlen : rest.length = c)
    (hnodup : ((first :: rest).map Prod.fst).Nodup)
    (hbound : ∀ p ∈ first :: rest, p.1 < 2 ^ 20 ∧ p.2 < 2 ^ 20) (op : OPERATION) :
    (tlb_lookup first.1 op (tlb_run ops ( tlb_initialize mem TLB.boot))).2.tlb_miss = true ∧
    (∀ e ∈ (tlb_run ops ( tlb_initialize mem TLB.boot)).tlb, ¬ e.caches first.1) ∧
    ∀ p ∈ rest,
      (tlb_lookup p.1 op (tlb_run ops ( tlb_initialize mem TLB.boot))).1 = some p.2 ∧
      (tlb_lookup p.1 op (tlb_run ops ( tlb_initialize mem TLB.boot))).2.tlb_miss = false := by
  have hne : rest ≠ [] := by
    intro h
    rw [h] at hlen
    simp at hlen
    omega
  obtain ⟨mid, last, rfl⟩ : ∃ mid last, rest = mid ++ [last] :=
    ⟨rest.dropLast, rest.getLast hne, (List.dropLast_append_getLast hne).symm⟩
  have hcores := tlb_run_core_wrap mem ops first mid last hops hins
    (by simpa [hmem] using hlen) hbound
  have hkeys : first.1 ∉ (last :: mid).map Prod.fst ∧ ((last :: mid).map Prod.fst).Nodup := by
    rw [List.map_cons, List.nodup_cons] at hnodup
    have hperm : ((last :: mid).map Prod.fst).Perm ((mid ++ [last]).map Prod.fst) := by
      apply List.Perm.map
      exact (List.perm_append_singleton last mid).symm
    exact ⟨fun h => hnodup.1 (hperm.mem_iff.mp h), hperm.nodup_iff.mpr hnodup.2⟩
  have hnil : (tlb_run ops ( tlb_initialize mem TLB.boot)).tlb ≠ [] := by
    intro h
    rw [h] at hcores
    simp at hcores
  have hfirst : ∀ e ∈ (tlb_run ops ( tlb_initialize mem TLB.boot)).tlb, ¬ e.caches first.1 := by
    rw [← core_find_none_iff, hcores]
    exact core_find_of_not_mem _ _ hkeys.1
  refine ⟨?_, hfirst, ?_⟩
  · simp only [tlb_lookup, tlb_lookup_loop_miss_iff]
    exact ⟨hfirst, fun h => absurd h hnil⟩
  · intro p hp
    have hp1 : p ∈ last :: mid := by
      rcases List.mem_append.mp hp with h | h
      · exact List.mem_cons_of_mem _ h
      · rw [List.mem_singleton.mp h]; exact List.mem_cons_self _ _
    have hfind := core_find_of_mem (last :: mid) hkeys.2 p hp1
    constructor
    · simp only [tlb_lookup, tlb_lookup_loop_result, hcores, hfind]
    · cases hm : (tlb_lookup p.1 op (tlb_run ops ( tlb_initialize mem TLB.boot))).2.tlb_miss with
      | false => rfl
      | true =>
        simp only [tlb_lookup, tlb_lookup_loop_miss_iff] at hm
        have h0 := (core_find_none_iff p.1 _).mpr hm.1
        rw [hcores, hfind] at h0
        exact absurd h0 (by simp)

/-- C9 (amended). Capacity-bounded eviction: for every capacity `c ≥ 1`, starting from a
freshly initialized TLB (clock hand 0) and performing any sequence of `tlb_insert` and
`tlb_lookup` calls that holds `c + 1` `tlb_insert` calls, with pairwise distinct VPNs
below `2^20` and PFNs below `2^20`, exactly one of the first `c` inserted VPNs no longer
has a valid entry afterwards (`tlb_lookup` on it sets `tlb_miss`), and each of the other
`c` inserted VPNs hits (`tlb_miss` false) with the PFN it was inserted with. -/
theorem C9_capacity_bounded_eviction (c : Nat) (mem : List TLB_ENTRY) (ops : List TLB_OP)
    (hc : 1 ≤ c) (hmem : mem.length = c)
    (hops : ∀ o ∈ ops, o.isInsertOrLookup = true)
    (hlen : (tlb_inserted ops).length = c + 1)
    (hnodup : ((tlb_inserted ops).map Prod.fst).Nodup)
    (hbound : ∀ p ∈ tlb_inserted ops, p.1 < 2 ^ 20 ∧ p.2 < 2 ^ 20) :
    ∃ k : Nat, k < c ∧
      ∀ (j : Nat) (p : Nat × Nat), (tlb_inserted ops)[j]? = some p → ∀ op : OPERATION,
        (j = k →
          (tlb_lookup p.1 op (tlb_run ops ( tlb_initialize mem TLB.boot))).2.tlb_miss = true ∧
          ∀ e ∈ (tlb_run ops ( tlb_initialize mem TLB.boot)).tlb, ¬ e.caches p.1) ∧
        (j ≠ k →
          (tlb_lookup p.1 op (tlb_run ops ( tlb_initialize mem TLB.boot))).1 = some p.2 ∧
          (tlb_lookup p.1 op (tlb_run ops ( tlb_initialize mem TLB.boot))).2.tlb_miss
            = false) := by
  cases hins : tlb_inserted ops with
  | nil =>
    rw [hins] at hlen
    simp at hlen
  | cons first rest =>
    rw [hins] at hlen hnodup hbound
    have hrest : rest.length = c := by
      simpa using hlen
    refine ⟨0, by omega, ?_⟩
    intro j p hj op
    have h := tlb_run_wrap_lookup c mem ops first rest hc hmem hops hins hrest hnodup hbound op
    cases j with
    | zero =>
      rw [List.getElem?_cons_zero] at hj
      cases hj
      exact ⟨fun _ => ⟨h.1, h.2.1⟩, fun hne => absurd rfl hne⟩
    | succ i =>
      rw [List.getElem?_cons_succ] at hj
      exact ⟨fun he => absurd he (Nat.succ_ne_zero i), fun _ => h.2.2 p (List.getElem?_mem hj)⟩

/-- C9 (witness): capacity 2, three inserts with a lookup in between: one of VPNs 1 and
2 is no longer cached, the other and VPN 3 hit with their frames. -/
theorem C9_capacity_bounded_eviction_witness :
    ∃ k : Nat, k < 2 ∧
      ∀ (j : Nat) (p : Nat × Nat),
        (tlb_inserted [TLB_OP.insert 1 10 0 0, TLB_OP.insert 2 20 0 0,
          TLB_OP.lookup 2 OPERATION.STORE, TLB_OP.insert 3 30 0 0])[j]? = some p →
        ∀ op : OPERATION,
        (j = k →
          (tlb_lookup p.1 op (tlb_run [TLB_OP.insert 1 10 0 0, TLB_OP.insert 2 20 0 0,
            TLB_OP.lookup 2 OPERATION.STORE, TLB_OP.insert 3 30 0 0]
            ( tlb_initialize [⟨0, 0⟩, ⟨0, 0⟩] TLB.boot))).2.tlb_miss = true ∧
          ∀ e ∈ (tlb_run [TLB_OP.insert 1 10 0 0, TLB_OP.insert 2 20 0 0,
            TLB_OP.lookup 2 OPERATION.STORE, TLB_OP.insert 3 30 0 0]
            ( tlb_initialize [⟨0, 0⟩, ⟨0, 0⟩] TLB.boot)).tlb, ¬ e.caches p.1) ∧
        (j ≠ k →
          (tlb_lookup p.1 op (tlb_run [TLB_OP.insert 1 10 0 0, TLB_OP.insert 2 20 0 0,
            TLB_OP.lookup 2 OPERATION.STORE, TLB_OP.insert 3 30 0 0]
            ( tlb_initialize [⟨0, 0⟩, ⟨0, 0⟩] TLB.boot))).1 = some p.2 ∧
          (tlb_lookup p.1 op (tlb_run [TLB_OP.insert 1 10 0 0, TLB_OP.insert 2 20 0 0,
            TLB_OP.lookup 2 OPERATION.STORE, TLB_OP.insert 3 30 0 0]
            ( tlb_initialize [⟨0, 0⟩, ⟨0, 0⟩] TLB.boot))).2.tlb_miss = false) :=
  C9_capacity_bounded_eviction 2 [⟨0, 0⟩, ⟨0, 0⟩]
    [TLB_OP.insert 1 10 0 0, TLB_OP.insert 2 20 0 0, TLB_OP.lookup 2 OPERATION.STORE,
      TLB_OP.insert 3 30 0 0]
    (by decide) rfl (by decide) rfl (by decide) (by decide)

/-! ## Page table: indices (C20) -/

theorem pt_index_split (vpn : Nat) :
    vpn = PT_SIZE * (vpn >>> DIV_FIRST_PT_SHIFT) + (vpn &&& MOD_SECOND_PT_MASK) := by
  have hm : MOD_SECOND_PT_MASK = 2 ^ 10 - 1 := by decide
  have hs : PT_SIZE = 2 ^ 10 := by decide
  rw [hm, Nat.and_pow_two_sub_one_eq_mod, hs, DIV_FIRST_PT_SHIFT, Nat.shiftRight_eq_div_pow]
  exact (Nat.div_add_mod vpn (2 ^ 10)).symm

theorem pt_index_ne (v w : Nat) (h : v ≠ w) :
    v >>> DIV_FIRST_PT_SHIFT ≠ w >>> DIV_FIRST_PT_SHIFT ∨
      v &&& MOD_SECOND_PT_MASK ≠ w &&& MOD_SECOND_PT_MASK := by
  by_contra hc
  rw [not_or, not_not, not_not] at hc
  apply h
  rw [pt_index_split v, pt_index_split w, hc.1, hc.2]

/-- C20. Index safety and injectivity: for every `vpn < 2^20`, the first-level index
`vpn >> 10` and the second-level index `vpn & 0x3FF` that `pt_get_pageframe`,
`pt_update_pagetable` and `pt_clear_page_table_entry` use are both below 1024, the size
of each table; `vpn = 1024 * first + second`; and a different VPN below `2^20` has a
different pair of indices. -/
theorem C20_index_safety_injectivity (vpn : Nat) (hv : vpn < 2 ^ 20) :
    vpn >>> DIV_FIRST_PT_SHIFT < PT_SIZE ∧
    vpn &&& MOD_SECOND_PT_MASK < PT_SIZE ∧
    vpn = 1024 * (vpn >>> DIV_FIRST_PT_SHIFT) + (vpn &&& MOD_SECOND_PT_MASK) ∧
    ∀ w : Nat, w < 2 ^ 20 → w ≠ vpn →
      (w >>> DIV_FIRST_PT_SHIFT, w &&& MOD_SECOND_PT_MASK)
        ≠ (vpn >>> DIV_FIRST_PT_SHIFT, vpn &&& MOD_SECOND_PT_MASK) := by
  have hm : MOD_SECOND_PT_MASK = 2 ^ 10 - 1 := by decide
  have hs : PT_SIZE = 2 ^ 10 := by decide
  refine ⟨?_, ?_, pt_index_split vpn, ?_⟩
  · rw [DIV_FIRST_PT_SHIFT, Nat.shiftRight_eq_div_pow, hs]
    omega
  · rw [hm, Nat.and_pow_two_sub_one_eq_mod, hs]
    exact Nat.mod_lt _ (by decide)
  · intro w _ hne hpair
    rcases pt_index_ne w vpn hne with h | h
    · exact h (congrArg Prod.fst hpair)
    · exact h (congrArg Prod.snd hpair)

/-- C20 (witness): VPN `0xABCDE` has first-level index `0x2AF` and second-level index
`0xDE`. -/
theorem C20_index_safety_injectivity_witness :
    0xABCDE >>> DIV_FIRST_PT_SHIFT < PT_SIZE ∧ 0xABCDE &&& MOD_SECOND_PT_MASK < PT_SIZE ∧
    0xABCDE = 1024 * (0xABCDE >>> DIV_FIRST_PT_SHIFT) + (0xABCDE &&& MOD_SECOND_PT_MASK) :=
  have h := C20_index_safety_injectivity 0xABCDE (by decide)
  ⟨h.1, h.2.1, h.2.2.1⟩

/-! ## Page table: clearing and isolation (C12, C13, C14, C18) -/

theorem and_not32_bit31_testBit (x k : Nat) :
    (x &&& not32 (2 ^ 31)).testBit k = (decide (k < 31) && x.testBit k) := by
  rw [not32_eq]
  simp only [Nat.testBit_and, Nat.testBit_xor, Nat.testBit_two_pow, Nat.testBit_two_pow_sub_one]
  by_cases h : k < 31
  · have h1 : k < 32 := by omega
    have h2 : ¬ 31 = k := by omega
    simp [h, h1, h2]
  · by_cases h3 : 31 = k
    · subst h3; simp
    · have h4 : ¬ k < 32 := by omega
      simp [h, h3, h4]

theorem and_not32_bit31_and_bit31 (x : Nat) : (x &&& not32 (2 ^ 31)) &&& 2 ^ 31 = 0 := by
  rw [and_two_pow_eq, and_not32_bit31_testBit]
  simp

theorem and_not32_bit31_low (x : Nat) : (x &&& not32 (2 ^ 31)) % 2 ^ 20 = x % 2 ^ 20 := by
  apply Nat.eq_of_testBit_eq
  intro i
  simp only [Nat.testBit_mod_two_pow, and_not32_bit31_testBit]
  by_cases h : i < 20
  · have h1 : i < 31 := by omega
    simp [h, h1]
  · simp [h]

theorem and_not32_present (x : Nat) :
    toBOOL ((x &&& not32 PRESENT_BIT_MASK) &&& PRESENT_BIT_MASK) = 0 := by
  have hp : PRESENT_BIT_MASK = 2 ^ 31 := by decide
  rw [hp, and_not32_bit31_and_bit31]
  rfl

theorem pt_clear_none (v : Nat) (s : PT)
    (hs : s.first_level_page_table (v >>> DIV_FIRST_PT_SHIFT) = none) :
    pt_clear_page_table_entry v s = s := by
  simp only [pt_clear_page_table_entry, hs]

theorem pt_clear_some (v : Nat) (s : PT) (t : Nat → Nat)
    (hs : s.first_level_page_table (v >>> DIV_FIRST_PT_SHIFT) = some t) :
    pt_clear_page_table_entry v s =
      { first_level_page_table :=
          Function.update s.first_level_page_table (v >>> DIV_FIRST_PT_SHIFT)
            (some (Function.update t (v &&& MOD_SECOND_PT_MASK)
              (t (v &&& MOD_SECOND_PT_MASK) &&& not32 PRESENT_BIT_MASK)))
        page_fault := s.page_fault } := by
  simp only [pt_clear_page_table_entry, hs]

theorem pt_get_clear_same (v : Nat) (s : PT) :
    (pt_get_pageframe v (pt_clear_page_table_entry v s)).2.page_fault = true := by
  cases hs : s.first_level_page_table (v >>> DIV_FIRST_PT_SHIFT) with
  | none =>
    rw [pt_clear_none v s hs]
    simp only [pt_get_pageframe, hs]
  | some t =>
    rw [pt_clear_some v s t hs]
    simp only [pt_get_pageframe, Function.update_same, and_not32_present]
    rfl

/-- C12. Clear is not delete: in every page-table state, for all `v, f < 2^20`, after
`pt_update_pagetable(v, f)` followed by `pt_clear_page_table_entry(v)`,
`pt_get_pageframe(v)` sets `page_fault` true; and after a further
`pt_update_pagetable(v, f)`, `pt_get_pageframe(v)` returns `f` with `page_fault` false. -/
theorem C12_clear_is_not_delete (fresh fresh1 : Nat → Nat) (s : PT) (v f : Nat)
    (hv : v < 2 ^ 20) (hf : f < 2 ^ 20) :
    (pt_get_pageframe v
      (pt_clear_page_table_entry v (pt_update_pagetable fresh v f s))).2.page_fault = true ∧
    (pt_get_pageframe v (pt_update_pagetable fresh1 v f
      (pt_clear_page_table_entry v (pt_update_pagetable fresh v f s)))).1 = f ∧
    (pt_get_pageframe v (pt_update_pagetable fresh1 v f
      (pt_clear_page_table_entry v (pt_update_pagetable fresh v f s)))).2.page_fault = false := by
  have _ := hv
  refine ⟨pt_get_clear_same v _, ?_, ?_⟩ <;> rw [pt_update_get fresh1 v f _ hf]

/-- C12 (witness): the initialized table, VPN `0x12345`, frame `0x54321`, blocks of
all-ones words from `malloc`. -/
theorem C12_clear_is_not_delete_witness :
    (pt_get_pageframe 0x12345 (pt_clear_page_table_entry 0x12345
      (pt_update_pagetable (fun _ => 0xFFFFFFFF) 0x12345 0x54321
        (pt_initialize_page_table ⟨fun _ => none, false⟩)))).2.page_fault = true :=
  (C12_clear_is_not_delete (fun _ => 0xFFFFFFFF) (fun _ => 0xFFFFFFFF)
    (pt_initialize_page_table ⟨fun _ => none, false⟩) 0x12345 0x54321
    (by decide) (by decide)).1

theorem pt_get_fault_false (v : Nat) (s : PT)
    (h : (pt_get_pageframe v s).2.page_fault = false) :
    ∃ t, s.first_level_page_table (v >>> DIV_FIRST_PT_SHIFT) = some t := by
  cases hs : s.first_level_page_table (v >>> DIV_FIRST_PT_SHIFT) with
  | none => simp [pt_get_pageframe, hs] at h
  | some t => exact ⟨t, rfl⟩

/-- What `pt_get_pageframe` returns and the flag it sets depend on the entry of the
page alone. -/
theorem pt_get_congr (v : Nat) (s s1 : PT) (t t1 : Nat → Nat)
    (hs : s.first_level_page_table (v >>> DIV_FIRST_PT_SHIFT) = some t)
    (hs1 : s1.first_level_page_table (v >>> DIV_FIRST_PT_SHIFT) = some t1)
    (ht : t1 (v &&& MOD_SECOND_PT_MASK) = t (v &&& MOD_SECOND_PT_MASK)) :
    (pt_get_pageframe v s1).1 = (pt_get_pageframe v s).1 ∧
    (pt_get_pageframe v s1).2.page_fault = (pt_get_pageframe v s).2.page_fault := by
  simp only [pt_get_pageframe, hs, hs1, ht]
  split <;> exact ⟨rfl, rfl⟩

theorem PT_OP.apply_get_other (o : PT_OP) (v : Nat) (s : PT) (hne : o.vpage ≠ v)
    (h : (pt_get_pageframe v s).2.page_fault = false) :
    (pt_get_pageframe v (o.apply s)).1 = (pt_get_pageframe v s).1 ∧
    (pt_get_pageframe v (o.apply s)).2.page_fault = (pt_get_pageframe v s).2.page_fault := by
  obtain ⟨t, ht⟩ := pt_get_fault_false v s h
  cases o with
  | update fresh w g =>
    have hidx := pt_index_ne v w (fun e => hne e.symm)
    by_cases h1 : v >>> DIV_FIRST_PT_SHIFT = w >>> DIV_FIRST_PT_SHIFT
    · have h2 : v &&& MOD_SECOND_PT_MASK ≠ w &&& MOD_SECOND_PT_MASK := by
        rcases hidx with h3 | h3
        · exact absurd h1 h3
        · exact h3
      refine pt_get_congr v s _ t
        (Function.update t (w &&& MOD_SECOND_PT_MASK)
          (PRESENT_BIT_MASK ||| (g &&& PFRAME_MASK))) ht ?_ ?_
      · simp only [PT_OP.apply, pt_update_pagetable, ← h1, ht, Function.update_same]
      · exact Function.update_noteq h2 _ _
    · refine pt_get_congr v s _ t t ht ?_ rfl
      simp only [PT_OP.apply, pt_update_pagetable]
      rw [Function.update_noteq h1]
      exact ht
  | clear w =>
    have hidx := pt_index_ne v w (fun e => hne e.symm)
    by_cases h1 : v >>> DIV_FIRST_PT_SHIFT = w >>> DIV_FIRST_PT_SHIFT
    · have h2 : v &&& MOD_SECOND_PT_MASK ≠ w &&& MOD_SECOND_PT_MASK := by
        rcases hidx with h3 | h3
        · exact absurd h1 h3
        · exact h3
      refine pt_get_congr v s _ t
        (Function.update t (w &&& MOD_SECOND_PT_MASK)
          (t (w &&& MOD_SECOND_PT_MASK) &&& not32 PRESENT_BIT_MASK)) ht ?_ ?_
      · simp only [PT_OP.apply, pt_clear_page_table_entry, ← h1, ht, Function.update_same]
      · exact Function.update_noteq h2 _ _
    · refine pt_get_congr v s _ t t ht ?_ rfl
      simp only [PT_OP.apply, pt_clear_page_table_entry]
      split
      · exact ht
      · simp only []
        rw [Function.update_noteq h1]
        exact ht

theorem pt_run_get_other (ops : List PT_OP) (v : Nat) (s : PT)
    (hne : ∀ o ∈ ops, o.vpage ≠ v)
    (h : (pt_get_pageframe v s).2.page_fault = false) :
    (pt_get_pageframe v (pt_run ops s)).1 = (pt_get_pageframe v s).1 ∧
    (pt_get_pageframe v (pt_run ops s)).2.page_fault = false := by
  induction ops generalizing s with
  | nil => exact ⟨rfl, h⟩
  | cons o ops ih =>
    have h1 := o.apply_get_other v s (hne o (List.mem_cons_self _ _)) h
    have h2 := ih (o.apply s) (fun x hx => hne x (List.mem_cons_of_mem _ hx))
      (by rw [h1.2]; exact h)
    exact ⟨h2.1.trans h1.1, h2.2⟩

/-- C13. Mapping isolation: for all distinct VPNs `v, w < 2^20` and all `f, g`, if
`pt_get_pageframe(v)` returns `f` with `page_fault` false, then it still returns `f` with
`page_fault` false after `pt_update_pagetable(w, g)`, after
`pt_clear_page_table_entry(w)`, and after any finite sequence of such calls made for
VPNs other than `v`. -/
theorem C13_mapping_isolation (s : PT) (v f : Nat) (hv : v < 2 ^ 20)
    (hget : (pt_get_pageframe v s).1 = f) (hok : (pt_get_pageframe v s).2.page_fault = false) :
    (∀ (fresh : Nat → Nat) (w g : Nat), w < 2 ^ 20 → w ≠ v →
      (pt_get_pageframe v (pt_update_pagetable fresh w g s)).1 = f ∧
      (pt_get_pageframe v (pt_update_pagetable fresh w g s)).2.page_fault = false) ∧
    (∀ w : Nat, w < 2 ^ 20 → w ≠ v →
      (pt_get_pageframe v (pt_clear_page_table_entry w s)).1 = f ∧
      (pt_get_pageframe v (pt_clear_page_table_entry w s)).2.page_fault = false) ∧
    (∀ ops : List PT_OP, (∀ o ∈ ops, o.vpage ≠ v) →
      (pt_get_pageframe v (pt_run ops s)).1 = f ∧
      (pt_get_pageframe v (pt_run ops s)).2.page_fault = false) := by
  have _ := hv
  refine ⟨?_, ?_, ?_⟩
  · intro fresh w g _ hne
    have h := (PT_OP.update fresh w g).apply_get_other v s hne hok
    exact ⟨h.1.trans hget, h.2.trans hok⟩
  · intro w _ hne
    have h := (PT_OP.clear w).apply_get_other v s hne hok
    exact ⟨h.1.trans hget, h.2.trans hok⟩
  · intro ops hne
    have h := pt_run_get_other ops v s hne hok
    exact ⟨h.1.trans hget, h.2⟩

/-- C13 (witness): VPN 5 mapped to frame 7; VPN 6, which shares its second-level table,
is then installed. -/
theorem C13_mapping_isolation_witness :
    (pt_get_pageframe 5 (pt_update_pagetable (fun _ => 0) 6 9
      (pt_update_pagetable (fun _ => 0xFFFFFFFF) 5 7
        (pt_initialize_page_table ⟨fun _ => none, false⟩)))).1 = 7 ∧
    (pt_get_pageframe 5 (pt_update_pagetable (fun _ => 0) 6 9
      (pt_update_pagetable (fun _ => 0xFFFFFFFF) 5 7
        (pt_initialize_page_table ⟨fun _ => none, false⟩)))).2.page_fault = false :=
  (C13_mapping_isolation
    (pt_update_pagetable (fun _ => 0xFFFFFFFF) 5 7
      (pt_initialize_page_table ⟨fun _ => none, false⟩)) 5 7
    (by decide) (by decide) (by decide)).1 (fun _ => 0) 6 9 (by decide) (by decide)

/-- C14. Frame of `pt_clear_page_table_entry`: in every page-table state and for every
`v < 2^20`, the call leaves the state entirely unchanged when the first-level slot of `v`
is absent.  Otherwise it leaves `page_fault` and every other first-level slot unchanged,
and in the second-level table of `v` it leaves every other entry unchanged and turns bit
31 of the entry of `v` to 0, leaving its bits 0 to 30 (in particular its 20 frame bits)
as they were.  In both cases the set of allocated second-level tables is unchanged. -/
theorem C14_clear_entry_frame (s : PT) (v : Nat) (hv : v < 2 ^ 20) :
    (s.first_level_page_table (v >>> DIV_FIRST_PT_SHIFT) = none →
      pt_clear_page_table_entry v s = s) ∧
    (∀ t : Nat → Nat, s.first_level_page_table (v >>> DIV_FIRST_PT_SHIFT) = some t →
      (pt_clear_page_table_entry v s).page_fault = s.page_fault ∧
      (∀ i : Nat, i ≠ v >>> DIV_FIRST_PT_SHIFT →
        (pt_clear_page_table_entry v s).first_level_page_table i
          = s.first_level_page_table i) ∧
      ∃ t1 : Nat → Nat,
        (pt_clear_page_table_entry v s).first_level_page_table (v >>> DIV_FIRST_PT_SHIFT)
          = some t1 ∧
        (∀ j : Nat, j ≠ v &&& MOD_SECOND_PT_MASK → t1 j = t j) ∧
        (t1 (v &&& MOD_SECOND_PT_MASK)).testBit 31 = false ∧
        (∀ k : Nat, k < 31 →
          (t1 (v &&& MOD_SECOND_PT_MASK)).testBit k = (t (v &&& MOD_SECOND_PT_MASK)).testBit k) ∧
        t1 (v &&& MOD_SECOND_PT_MASK) &&& PFRAME_MASK
          = t (v &&& MOD_SECOND_PT_MASK) &&& PFRAME_MASK) ∧
    (∀ i : Nat, ((pt_clear_page_table_entry v s).first_level_page_table i).isSome
      = (s.first_level_page_table i).isSome) := by
  have _ := hv
  have hp : PRESENT_BIT_MASK = 2 ^ 31 := by decide
  refine ⟨pt_clear_none v s, ?_, ?_⟩
  · intro t ht
    rw [pt_clear_some v s t ht]
    refine ⟨rfl, fun i hi => Function.update_noteq hi _ _, _, Function.update_same _ _ _,
      fun j hj => Function.update_noteq hj _ _, ?_, ?_, ?_⟩
    · rw [Function.update_same, hp, and_not32_bit31_testBit]
      simp
    · intro k hk
      rw [Function.update_same, hp, and_not32_bit31_testBit]
      simp [hk]
    · rw [Function.update_same, and_PFRAME_MASK, and_PFRAME_MASK, hp, and_not32_bit31_low]
  · intro i
    cases hs : s.first_level_page_table (v >>> DIV_FIRST_PT_SHIFT) with
    | none => rw [pt_clear_none v s hs]
    | some t =>
      rw [pt_clear_some v s t hs]
      by_cases hi : i = v >>> DIV_FIRST_PT_SHIFT
      · subst hi
        simp only [Function.update_same, hs, Option.isSome_some]
      · simp only [ne_eq, hi, not_false_eq_true, Function.update_noteq]

/-- C14 (witness): with no second-level table allocated, clearing VPN 5 changes
nothing. -/
theorem C14_clear_entry_frame_witness :
    pt_clear_page_table_entry 5 (pt_initialize_page_table ⟨fun _ => none, false⟩)
      = pt_initialize_page_table ⟨fun _ => none, false⟩ :=
  (C14_clear_entry_frame (pt_initialize_page_table ⟨fun _ => none, false⟩) 5 (by decide)).1 rfl

/-- C18. `pt_update_pagetable` is idempotent: in every page-table state, for every
`v < 2^20` and every `f`, calling `pt_update_pagetable(v, f)` twice in a row yields the
same state (same allocated second-level tables, same entry contents, same `page_fault`)
as calling it once; the second call allocates nothing, whatever `malloc` would return. -/
theorem C18_update_idempotent (fresh fresh1 : Nat → Nat) (s : PT) (v f : Nat)
    (hv : v < 2 ^ 20) :
    pt_update_pagetable fresh1 v f (pt_update_pagetable fresh v f s)
      = pt_update_pagetable fresh v f s := by
  have _ := hv
  simp only [pt_update_pagetable, Function.update_same, Function.update_idem]

/-- C18 (witness): VPN `0x12345` installed twice with frame `0x54321` in the initialized
table, the two calls being offered different blocks by `malloc`. -/
theorem C18_update_idempotent_witness :
    pt_update_pagetable (fun _ => 0) 0x12345 0x54321
      (pt_update_pagetable (fun _ => 0xFFFFFFFF) 0x12345 0x54321
        (pt_initialize_page_table ⟨fun _ => none, false⟩))
      = pt_update_pagetable (fun _ => 0xFFFFFFFF) 0x12345 0x54321
        (pt_initialize_page_table ⟨fun _ => none, false⟩) :=
  C18_update_idempotent (fun _ => 0xFFFFFFFF) (fun _ => 0)
    (pt_initialize_page_table ⟨fun _ => none, false⟩) 0x12345 0x54321 (by decide)

/-! ## TLB: the clock hand (C11, C19) -/

theorem clock_hand_step (h n : Nat) (hh : h < n) :
    (if h + 1 > n - 1 then 0 else h + 1) = (h + 1) % n := by
  by_cases h1 : h + 1 = n
  · rw [if_pos (by omega), h1, Nat.mod_self]
  · rw [if_neg (by omega), Nat.mod_eq_of_lt (by omega)]

theorem TLB_OP.apply_clock_hand (o : TLB_OP) (s : TLB) (ho : o.isInsert = false) :
    (o.apply s).clock_hand = s.clock_hand := by
  cases o with
  | insert v f m r => simp [TLB_OP.isInsert] at ho
  | lookup v op => rfl
  | clear_all => rfl
  | clear_all_R_bits => rfl
  | clear_entry v => rfl
  | write_back => rfl

/-- C11. Clock-hand invariant: for every capacity at least 1, in every state reached
from `tlb_initialize` (clock hand initially 0) by the operations of the module,
`0 ≤ clock_hand < num_tlb_entries`; no operation other than `tlb_insert` changes
`clock_hand`; and `tlb_insert` writes the slot at `clock_hand` and leaves `clock_hand`
equal to (index of the slot just written + 1) mod `num_tlb_entries`, the capacity being
unchanged. -/
theorem C11_clock_hand_invariant (s : TLB) (hs : s.Reachable) (hcap : 1 ≤ s.num_tlb_entries) :
    0 ≤ s.clock_hand ∧ s.clock_hand < s.num_tlb_entries ∧
    (∀ o : TLB_OP, o.isInsert = false → (o.apply s).clock_hand = s.clock_hand) ∧
    ∀ v f m r : Nat,
      (tlb_insert v f m r s).tlb =
        s.tlb.set s.clock_hand (tlb_insert_entry v f m r (s.tlb.getD s.clock_hand default)) ∧
      (tlb_insert v f m r s).num_tlb_entries = s.num_tlb_entries ∧
      (tlb_insert v f m r s).clock_hand = (s.clock_hand + 1) % s.num_tlb_entries := by
  have hh := reachable_clock_hand s hs hcap
  refine ⟨Nat.zero_le _, hh, fun o ho => o.apply_clock_hand s ho, ?_⟩
  intro v f m r
  rw [tlb_insert_eq]
  refine ⟨rfl, ?_, ?_⟩
  · simp [TLB.num_tlb_entries]
  · exact clock_hand_step _ _ hh

/-- C11 (witness): a 2-entry TLB after `tlb_initialize` and two inserts; the clock hand
has wrapped to 0 and a third insert leaves it at 1. -/
theorem C11_clock_hand_invariant_witness :
    (tlb_run [TLB_OP.insert 1 10 0 0, TLB_OP.insert 2 20 0 0]
      ( tlb_initialize [⟨0, 0⟩, ⟨0, 0⟩] TLB.boot)).clock_hand < 2 ∧
    (tlb_insert 3 30 0 0 (tlb_run [TLB_OP.insert 1 10 0 0, TLB_OP.insert 2 20 0 0]
      ( tlb_initialize [⟨0, 0⟩, ⟨0, 0⟩] TLB.boot))).clock_hand
      = ((tlb_run [TLB_OP.insert 1 10 0 0, TLB_OP.insert 2 20 0 0]
        ( tlb_initialize [⟨0, 0⟩, ⟨0, 0⟩] TLB.boot)).clock_hand + 1) % 2 :=
  have h := C11_clock_hand_invariant
    (tlb_run [TLB_OP.insert 1 10 0 0, TLB_OP.insert 2 20 0 0]
      ( tlb_initialize [⟨0, 0⟩, ⟨0, 0⟩] TLB.boot)) ⟨_, _, rfl⟩ (by decide)
  ⟨h.2.1, (h.2.2.2 3 30 0 0).2.2⟩

/-- C19. Round-robin replacement: for every TLB state whose clock hand `h` is an index
into the array and every argument tuple, `tlb_insert` as written (the scan condition of
line 119 read with the precedence of C, so that it never holds) writes the new entry
into slot `h`, whatever the valid and reference bits of the entries are; it leaves every
other slot and the capacity unchanged and sets `clock_hand` to `(h + 1) mod capacity`. -/
theorem C19_round_robin (s : TLB) (v f m r : Nat) (hh : s.clock_hand < s.num_tlb_entries) :
    tlb_insert_scan (s.tlb.drop s.clock_hand) s.clock_hand = none ∧
    (tlb_insert v f m r s).tlb[s.clock_hand]?
      = some (tlb_insert_entry v f m r (s.tlb.getD s.clock_hand default)) ∧
    (∀ i : Nat, i ≠ s.clock_hand → (tlb_insert v f m r s).tlb[i]? = s.tlb[i]?) ∧
    (tlb_insert v f m r s).num_tlb_entries = s.num_tlb_entries ∧
    (tlb_insert v f m r s).clock_hand = (s.clock_hand + 1) % s.num_tlb_entries := by
  unfold TLB.num_tlb_entries at hh
  rw [tlb_insert_eq]
  refine ⟨tlb_insert_scan_none _ _, ?_, ?_, ?_, clock_hand_step _ _ hh⟩
  · show (s.tlb.set _ _)[s.clock_hand]? = _
    rw [List.getElem?_set, if_pos rfl, if_pos hh]
  · intro i hi
    show (s.tlb.set _ _)[i]? = _
    rw [List.getElem?_set, if_neg (fun e => hi e.symm)]
  · simp [TLB.num_tlb_entries]

/-- C19 (witness): clock hand 0, slot 0 valid and referenced, slot 1 invalid: the insert
still writes slot 0 and leaves slot 1 as it was. -/
theorem C19_round_robin_witness :
    (tlb_insert 3 30 0 0 ⟨[⟨0x80000001, 0x8000000A⟩, ⟨0, 0⟩], 0, false, []⟩).tlb[0]?
      = some (tlb_insert_entry 3 30 0 0 ⟨0x80000001, 0x8000000A⟩) ∧
    (tlb_insert 3 30 0 0 ⟨[⟨0x80000001, 0x8000000A⟩, ⟨0, 0⟩], 0, false, []⟩).tlb[1]?
      = some ⟨0, 0⟩ :=
  have h := C19_round_robin ⟨[⟨0x80000001, 0x8000000A⟩, ⟨0, 0⟩], 0, false, []⟩ 3 30 0 0
    (by decide)
  ⟨h.2.1, h.2.2.1 1 (by decide)⟩

/-! ## TLB: flushes (C15, C16, C17) -/

theorem clear_vbit_frame (e : TLB_ENTRY) :
    (e.vbit_and_vpage &&& not32 VBIT_MASK).testBit 31 = false ∧
    (∀ k : Nat, k < 31 →
      (e.vbit_and_vpage &&& not32 VBIT_MASK).testBit k = e.vbit_and_vpage.testBit k) ∧
    (e.vbit_and_vpage &&& not32 VBIT_MASK) &&& VBIT_MASK = 0 ∧
    (e.vbit_and_vpage &&& not32 VBIT_MASK) &&& VPAGE_MASK = e.vbit_and_vpage &&& VPAGE_MASK := by
  have hp : VPAGE_MASK = PFRAME_MASK := rfl
  rw [VBIT_MASK_eq]
  refine ⟨?_, ?_, and_not32_bit31_and_bit31 _, ?_⟩
  · rw [and_not32_bit31_testBit]; simp
  · intro k hk
    rw [and_not32_bit31_testBit]; simp [hk]
  · rw [hp, and_PFRAME_MASK, and_PFRAME_MASK, and_not32_bit31_low]

theorem TLB_OP.apply_length (o : TLB_OP) (s : TLB) :
    (o.apply s).tlb.length = s.tlb.length := by
  cases o with
  | insert v f m r => simp [TLB_OP.apply, tlb_insert_eq]
  | lookup v op => simp [TLB_OP.apply, tlb_lookup, tlb_lookup_loop_length]
  | clear_all => simp [TLB_OP.apply, tlb_clear_all]
  | clear_all_R_bits => simp [TLB_OP.apply, tlb_clear_all_R_bits]
  | clear_entry v => simp [TLB_OP.apply, tlb_clear_entry]
  | write_back => rfl

theorem tlb_clear_all_flushed (s : TLB) : (tlb_clear_all s).flushed := by
  intro e he
  simp only [tlb_clear_all, List.mem_map] at he
  obtain ⟨a, _, rfl⟩ := he
  exact (clear_vbit_frame a).2.2.1

theorem TLB_OP.apply_flushed (o : TLB_OP) (s : TLB) (ho : o.isInsert = false)
    (hf : s.flushed) : (o.apply s).flushed := by
  cases o with
  | insert v f m r => simp [TLB_OP.isInsert] at ho
  | lookup v op =>
    intro e he
    have hw : e.vbit_and_vpage ∈ (tlb_lookup v op s).2.tlb.map TLB_ENTRY.vbit_and_vpage :=
      List.mem_map_of_mem _ he
    simp only [tlb_lookup, tlb_lookup_loop_words] at hw
    obtain ⟨a, ha, hav⟩ := List.mem_map.mp hw
    rw [← hav]
    exact hf a ha
  | clear_all => exact tlb_clear_all_flushed s
  | clear_all_R_bits =>
    intro e he
    simp only [TLB_OP.apply, tlb_clear_all_R_bits, List.mem_map] at he
    obtain ⟨a, ha, rfl⟩ := he
    exact hf a ha
  | clear_entry v =>
    intro e he
    simp only [TLB_OP.apply, tlb_clear_entry, List.mem_map] at he
    obtain ⟨a, ha, rfl⟩ := he
    split
    · exact (clear_vbit_frame a).2.2.1
    · exact hf a ha
  | write_back => exact hf

theorem tlb_run_flushed (ops : List TLB_OP) (s : TLB) (hops : ∀ o ∈ ops, o.isInsert = false)
    (hf : s.flushed) :
    (tlb_run ops s).flushed ∧ (tlb_run ops s).tlb.length = s.tlb.length := by
  induction ops generalizing s with
  | nil => exact ⟨hf, rfl⟩
  | cons o ops ih =>
    have h := ih (o.apply s) (fun x hx => hops x (List.mem_cons_of_mem _ hx))
      (o.apply_flushed s (hops o (List.mem_cons_self _ _)) hf)
    exact ⟨h.1, h.2.trans (o.apply_length s)⟩

theorem tlb_lookup_flushed (v : Nat) (op : OPERATION) (s : TLB) (hf : s.flushed)
    (hcap : 1 ≤ s.tlb.length) : (tlb_lookup v op s).2.tlb_miss = true := by
  simp only [tlb_lookup, tlb_lookup_loop_miss_iff]
  refine ⟨fun e he hc => hc.1 (hf e he), fun h => ?_⟩
  rw [h] at hcap
  simp at hcap

/-- C15. Full flush: for every TLB state with at least one entry, after `tlb_clear_all`
every entry has its valid bit (bit 31 of the first word) cleared, with bits 0 to 30 of
the first word and the whole second word unchanged, and `tlb_lookup(v, op)` sets
`tlb_miss` true for every `v` and every operation, also after any further calls other
than `tlb_insert`.  The same holds right after `tlb_initialize`, with respect to the block
that `malloc` returned. -/
theorem C15_full_flush (s : TLB) :
    (∀ (i : Nat) (e : TLB_ENTRY), s.tlb[i]? = some e →
      ∃ e1 : TLB_ENTRY, (tlb_clear_all s).tlb[i]? = some e1 ∧
        e1.vbit_and_vpage.testBit 31 = false ∧
        (∀ k : Nat, k < 31 → e1.vbit_and_vpage.testBit k = e.vbit_and_vpage.testBit k) ∧
        e1.mr_pframe = e.mr_pframe) ∧
    (1 ≤ s.num_tlb_entries → ∀ ops : List TLB_OP, (∀ o ∈ ops, o.isInsert = false) →
      ∀ (v : Nat) (op : OPERATION),
        (tlb_lookup v op (tlb_run ops (tlb_clear_all s))).2.tlb_miss = true) ∧
    ∀ mem : List TLB_ENTRY,
      (∀ (i : Nat) (e : TLB_ENTRY), mem[i]? = some e →
        ∃ e1 : TLB_ENTRY, ( tlb_initialize mem s).tlb[i]? = some e1 ∧
          e1.vbit_and_vpage.testBit 31 = false ∧
          (∀ k : Nat, k < 31 → e1.vbit_and_vpage.testBit k = e.vbit_and_vpage.testBit k) ∧
          e1.mr_pframe = e.mr_pframe) ∧
      (1 ≤ mem.length → ∀ ops : List TLB_OP, (∀ o ∈ ops, o.isInsert = false) →
        ∀ (v : Nat) (op : OPERATION),
          (tlb_lookup v op (tlb_run ops ( tlb_initialize mem s))).2.tlb_miss = true) := by
  have hentry : ∀ (t : TLB) (i : Nat) (e : TLB_ENTRY), t.tlb[i]? = some e →
      ∃ e1 : TLB_ENTRY, (tlb_clear_all t).tlb[i]? = some e1 ∧
        e1.vbit_and_vpage.testBit 31 = false ∧
        (∀ k : Nat, k < 31 → e1.vbit_and_vpage.testBit k = e.vbit_and_vpage.testBit k) ∧
        e1.mr_pframe = e.mr_pframe := by
    intro t i e he
    refine ⟨⟨e.vbit_and_vpage &&& not32 VBIT_MASK, e.mr_pframe⟩, ?_,
      (clear_vbit_frame e).1, (clear_vbit_frame e).2.1, rfl⟩
    simp only [tlb_clear_all, List.getElem?_map, he, Option.map_some']
  have hmiss : ∀ t : TLB, 1 ≤ t.tlb.length → ∀ ops : List TLB_OP,
      (∀ o ∈ ops, o.isInsert = false) → ∀ (v : Nat) (op : OPERATION),
        (tlb_lookup v op (tlb_run ops (tlb_clear_all t))).2.tlb_miss = true := by
    intro t ht ops hops v op
    have h := tlb_run_flushed ops (tlb_clear_all t) hops (tlb_clear_all_flushed t)
    apply tlb_lookup_flushed v op _ h.1
    rw [h.2]
    simpa [tlb_clear_all] using ht
  refine ⟨hentry s, hmiss s, fun mem => ⟨?_, ?_⟩⟩
  · intro i e he
    exact hentry { s with tlb := mem } i e he
  · intro hm
    exact hmiss { s with tlb := mem } hm

/-- C15 (witness): a 2-entry TLB holding two valid entries is flushed, its reference
bits are then cleared, and a lookup of a VPN it held misses. -/
theorem C15_full_flush_witness :
    (tlb_lookup 1 OPERATION.LOAD (tlb_run [TLB_OP.clear_all_R_bits]
      (tlb_clear_all ⟨[⟨0x80000001, 0x8000000A⟩, ⟨0x80000002, 0x00000014⟩], 0, false, []⟩))
      ).2.tlb_miss = true :=
  (C15_full_flush ⟨[⟨0x80000001, 0x8000000A⟩, ⟨0x80000002, 0x00000014⟩], 0, false, []⟩).2.1
    (by decide) [TLB_OP.clear_all_R_bits] (by decide) 1 OPERATION.LOAD

theorem tlb_clear_entry_core_find (vpn w : Nat) (hne : w ≠ vpn) (l : List TLB_ENTRY) :
    core_find w ((l.map fun e =>
      if (e.vbit_and_vpage &&& VPAGE_MASK) = vpn then
        { e with vbit_and_vpage := e.vbit_and_vpage &&& not32 VBIT_MASK }
      else e).map TLB_ENTRY.core) = core_find w (l.map TLB_ENTRY.core) := by
  induction l with
  | nil => rfl
  | cons e rest ih =>
    simp only [List.map_cons]
    by_cases hv : (e.vbit_and_vpage &&& VPAGE_MASK) = vpn
    · have h1 : ¬ e.caches w := fun hc => hne (hc.2.symm.trans hv)
      have h2 : ¬ TLB_ENTRY.caches
          { e with vbit_and_vpage := e.vbit_and_vpage &&& not32 VBIT_MASK } w :=
        clear_vbit_not_caches _ _ _
      rw [if_pos hv, core_find_cons_of_not_caches _ w h2, core_find_cons_of_not_caches _ w h1]
      exact ih
    · rw [if_neg hv]
      by_cases hc : e.caches w
      · rw [core_of_caches e w hc]
        simp [core_find]
      · rw [core_find_cons_of_not_caches _ w hc, core_find_cons_of_not_caches _ w hc]
        exact ih

/-- C16. TLB per-page invalidation: for every TLB state with at least one entry and
every `vpn < 2^20`, after `tlb_clear_entry(vpn)` a call `tlb_lookup(vpn, op)` sets
`tlb_miss` true.  `tlb_clear_entry(vpn)` changes nothing but the valid bit (bit 31 of
the first word) of the entries whose VPN field equals `vpn`, which it clears: the other
entries, the second words, the clock hand, `tlb_miss` and the calls into the MMU are as
before; so for every other VPN `w` the result and the miss flag of `tlb_lookup(w, op)`
are the same as they would have been before the call. -/
theorem C16_clear_entry_invalidates (s : TLB) (vpn : Nat) (hcap : 1 ≤ s.num_tlb_entries)
    (hv : vpn < 2 ^ 20) :
    (∀ op : OPERATION, (tlb_lookup vpn op (tlb_clear_entry vpn s)).2.tlb_miss = true) ∧
    (tlb_clear_entry vpn s).clock_hand = s.clock_hand ∧
    (tlb_clear_entry vpn s).tlb_miss = s.tlb_miss ∧
    (tlb_clear_entry vpn s).mmu_calls = s.mmu_calls ∧
    (∀ (i : Nat) (e : TLB_ENTRY), s.tlb[i]? = some e →
      ∃ e1 : TLB_ENTRY, (tlb_clear_entry vpn s).tlb[i]? = some e1 ∧
        e1.mr_pframe = e.mr_pframe ∧
        (∀ k : Nat, k < 31 → e1.vbit_and_vpage.testBit k = e.vbit_and_vpage.testBit k) ∧
        ((e.vbit_and_vpage &&& VPAGE_MASK) = vpn → e1.vbit_and_vpage.testBit 31 = false) ∧
        ((e.vbit_and_vpage &&& VPAGE_MASK) ≠ vpn → e1 = e)) ∧
    (∀ (w : Nat) (op : OPERATION), w ≠ vpn →
      (tlb_lookup w op (tlb_clear_entry vpn s)).1 = (tlb_lookup w op s).1 ∧
      (tlb_lookup w op (tlb_clear_entry vpn s)).2.tlb_miss = (tlb_lookup w op s).2.tlb_miss) := by
  have _ := hv
  refine ⟨?_, rfl, rfl, rfl, ?_, ?_⟩
  · intro op
    simp only [tlb_lookup, tlb_lookup_loop_miss_iff]
    constructor
    · intro e he hc
      simp only [tlb_clear_entry, List.mem_map] at he
      obtain ⟨a, _, rfl⟩ := he
      by_cases ha : (a.vbit_and_vpage &&& VPAGE_MASK) = vpn
      · rw [if_pos ha] at hc
        exact clear_vbit_not_caches _ _ _ hc
      · rw [if_neg ha] at hc
        exact ha hc.2
    · intro h
      have hl : (tlb_clear_entry vpn s).tlb.length = s.tlb.length := by
        simp [tlb_clear_entry]
      rw [h] at hl
      unfold TLB.num_tlb_entries at hcap
      simp at hl
      omega
  · intro i e he
    by_cases ha : (e.vbit_and_vpage &&& VPAGE_MASK) = vpn
    · refine ⟨⟨e.vbit_and_vpage &&& not32 VBIT_MASK, e.mr_pframe⟩, ?_, rfl,
        (clear_vbit_frame e).2.1, fun _ => (clear_vbit_frame e).1, fun h => absurd ha h⟩
      simp only [tlb_clear_entry, List.getElem?_map, he, Option.map_some', if_pos ha]
    · refine ⟨e, ?_, rfl, fun _ _ => rfl, fun h => absurd h ha, fun _ => rfl⟩
      simp only [tlb_clear_entry, List.getElem?_map, he, Option.map_some', if_neg ha]
  · intro w op hne
    have hfind := tlb_clear_entry_core_find vpn w hne s.tlb
    constructor
    · simp only [tlb_lookup, tlb_lookup_loop_result, tlb_clear_entry]
      exact hfind
    · rw [Bool.eq_iff_iff]
      simp only [tlb_lookup, tlb_lookup_loop_miss_iff, ← core_find_none_iff, tlb_clear_entry,
        hfind, List.map_eq_nil_iff]

/-- C16 (witness): a 2-entry TLB caching VPNs 1 and 2; after `tlb_clear_entry(1)` a
lookup of VPN 1 misses and a lookup of VPN 2 still returns frame 20. -/
theorem C16_clear_entry_invalidates_witness :
    (tlb_lookup 1 OPERATION.LOAD (tlb_clear_entry 1
      ⟨[⟨0x80000001, 0x8000000A⟩, ⟨0x80000002, 0x00000014⟩], 0, false, []⟩)).2.tlb_miss = true ∧
    (tlb_lookup 2 OPERATION.LOAD (tlb_clear_entry 1
      ⟨[⟨0x80000001, 0x8000000A⟩, ⟨0x80000002, 0x00000014⟩], 0, false, []⟩)).1
      = (tlb_lookup 2 OPERATION.LOAD
        ⟨[⟨0x80000001, 0x8000000A⟩, ⟨0x80000002, 0x00000014⟩], 0, false, []⟩).1 :=
  have h := C16_clear_entry_invalidates
    ⟨[⟨0x80000001, 0x8000000A⟩, ⟨0x80000002, 0x00000014⟩], 0, false, []⟩ 1
    (by decide) (by decide)
  ⟨h.1 OPERATION.LOAD, (h.2.2.2.2.2 2 OPERATION.LOAD (by decide)).1⟩

theorem clear_rbit_frame (x : Nat) :
    (x &&& not32 RBIT_MASK).testBit 31 = false ∧
    (∀ k : Nat, k < 31 → (x &&& not32 RBIT_MASK).testBit k = x.testBit k) ∧
    (x &&& not32 RBIT_MASK) &&& PFRAME_MASK = x &&& PFRAME_MASK := by
  rw [RBIT_MASK_eq]
  refine ⟨?_, ?_, ?_⟩
  · rw [and_not32_bit31_testBit]; simp
  · intro k hk
    rw [and_not32_bit31_testBit]; simp [hk]
  · rw [and_PFRAME_MASK, and_PFRAME_MASK, and_not32_bit31_low]

/-- C17. Frame of `tlb_clear_all_R_bits`: for every TLB state, after the call every
entry's reference bit (bit 31 of the second word) is 0, while every entry's first word
(valid bit and VPN field), modify bit (bit 30 of the second word), PFN field and the
other bits below bit 31 of the second word are unchanged, as are the clock hand,
`tlb_miss`, the capacity and the calls into the MMU.  In particular entries whose
reference bit was 1 read reference bit 0 afterwards and remain valid. -/
theorem C17_clear_all_R_bits_frame (s : TLB) :
    (tlb_clear_all_R_bits s).clock_hand = s.clock_hand ∧
    (tlb_clear_all_R_bits s).tlb_miss = s.tlb_miss ∧
    (tlb_clear_all_R_bits s).mmu_calls = s.mmu_calls ∧
    (tlb_clear_all_R_bits s).num_tlb_entries = s.num_tlb_entries ∧
    ∀ (i : Nat) (e : TLB_ENTRY), s.tlb[i]? = some e →
      ∃ e1 : TLB_ENTRY, (tlb_clear_all_R_bits s).tlb[i]? = some e1 ∧
        e1.mr_pframe.testBit 31 = false ∧
        e1.vbit_and_vpage = e.vbit_and_vpage ∧
        e1.mr_pframe.testBit 30 = e.mr_pframe.testBit 30 ∧
        e1.mr_pframe &&& PFRAME_MASK = e.mr_pframe &&& PFRAME_MASK ∧
        ∀ k : Nat, k < 31 → e1.mr_pframe.testBit k = e.mr_pframe.testBit k := by
  refine ⟨rfl, rfl, rfl, by simp [TLB.num_tlb_entries, tlb_clear_all_R_bits], ?_⟩
  intro i e he
  have hf := clear_rbit_frame e.mr_pframe
  refine ⟨⟨e.vbit_and_vpage, e.mr_pframe &&& not32 RBIT_MASK⟩, ?_, hf.1, rfl,
    hf.2.1 30 (by decide), hf.2.2, hf.2.1⟩
  simp only [tlb_clear_all_R_bits, List.getElem?_map, he, Option.map_some']

/-- C17 (witness): two valid entries with reference bit 1 (the first also modified);
after the call slot 0 holds the same entry with the reference bit cleared. -/
theorem C17_clear_all_R_bits_frame_witness :
    ∃ e1 : TLB_ENTRY,
      (tlb_clear_all_R_bits
        ⟨[⟨0x80000001, 0xC000000A⟩, ⟨0x80000002, 0x80000014⟩], 1, false, []⟩).tlb[0]? = some e1 ∧
      e1.mr_pframe.testBit 31 = false ∧ e1.vbit_and_vpage = 0x80000001 ∧
      e1.mr_pframe.testBit 30 = Nat.testBit 0xC000000A 30 :=
  have ⟨e1, h1, h2, h3, h4, _⟩ := (C17_clear_all_R_bits_frame
    ⟨[⟨0x80000001, 0xC000000A⟩, ⟨0x80000002, 0x80000014⟩], 1, false, []⟩).2.2.2.2 0
    ⟨0x80000001, 0xC000000A⟩ rfl
  ⟨e1, h1, h2, h3, h4⟩

end VM
